import Mathlib

/-!
# Block-hash agreement and validator-set synchronization of `x/symStaking`

A shallow embedding of `ProposalHandler.PrepareProposal` and
`ProposalHandler.PreBlocker` (`x/symStaking/abci/proposal.go`), and of
`Keeper.SymbioticUpdateValidatorsPower`
(`x/symStaking/keeper/symbiotic_state_change.go`).

The handlers call keeper methods, constants of package `keeper` and
`encoding/json` routines that are defined outside `proposal.go`.  Those appear
here as parameters (`Consts`, `JSON`, `Keeper`): the handlers are translated
statement by statement and every theorem quantifies over the parameters.

Effects are explicit.  A `World` carries the handler field `prevBlockTime`,
the single slot of the cached-result store, and the list of keeper calls made
so far, in call order.  Process termination (`os.Exit`) and a run-time panic
are results of their own in `Outcome`.
-/

namespace SymStaking

/-! ## Data model -/

/-- A Go `error` value as far as the handlers can observe it: its message and
whether `errors.Is(err, ethereum.NotFound)` holds for it. -/
structure GoError where
  msg : String
  isNotFound : Bool
deriving DecidableEq, Repr

/-- A transaction, `[]byte`; the handlers never look inside one, they only
hand it to the JSON decoder. -/
abbrev Tx := List Nat

/-- The entity `stakingtypes.CachedBlockHash`; `Height` is an `int64`. -/
structure CachedBlockHash where
  BlockHash : String
  Height : Int
deriving DecidableEq, Repr

/-- What the handlers read from an external block: `block.Number()` (a big
integer), `block.Hash().String()` and `block.Time()` (a `uint64`). -/
structure Block where
  Number : Int
  Hash : String
  Time : Nat
deriving DecidableEq, Repr

/-- The fields of `abci.PrepareProposalRequest` read by the handler. -/
structure PrepareProposalRequest where
  Txs : List Tx
  Height : Int
deriving DecidableEq, Repr

/-- The field of `abci.PrepareProposalResponse` set by the handler. -/
structure PrepareProposalResponse where
  Txs : List Tx
deriving DecidableEq, Repr

/-- The fields of `abci.FinalizeBlockRequest` read by the handler. -/
structure FinalizeBlockRequest where
  Txs : List Tx
  Height : Int
deriving DecidableEq, Repr

/-- The part of `sdk.Context` the handler reads:
`ctx.HeaderInfo().Time.Unix()`, an `int64` count of seconds. -/
structure Context where
  HeaderTimeUnix : Int
deriving DecidableEq, Repr

/-! ## Parameters: what the handlers use and the sources do not define -/

/-- The two constants of package `keeper` used by the handlers. -/
structure Consts where
  SYMBIOTIC_SYNC_PERIOD : Int
  INVALID_BLOCKHASH : String

/-- The two `encoding/json` entry points, at the only type the handlers use
them at: `Marshal` of a `string`, and `Unmarshal` into a fresh `string`
variable. -/
structure JSON where
  Marshal : String → Except GoError Tx
  Unmarshal : Tx → Except GoError String

/-- The answers of the keeper methods during one handler run.  Each method is
called at most once per run, so an answer per argument describes a run fully.
`cacheWriteError c` is the error reported by `CacheBlockHash` for `c`
(`none` for a nil error). -/
structure Keeper where
  finalizedBlockHash : Except GoError String
  blockByHash : String → Except GoError Block
  blockByNumber : Int → Except GoError Block
  minBlockTimestamp : Nat
  cacheWriteError : CachedBlockHash → Option GoError

/-! ## Effects -/

/-- A keeper call, with its arguments. -/
inductive Call where
  | getFinalizedBlockHash
  | getBlockByHash (hash : String)
  | getBlockByNumber (number : Int)
  | getMinBlockTimestamp
  | cacheBlockHash (c : CachedBlockHash)
deriving DecidableEq, Repr

/-- The mutable state a handler run can touch: the handler field
`prevBlockTime` (a `uint64`), the slot of the cached-result store, and the
keeper calls made so far. -/
structure World where
  prevBlockTime : Nat
  cache : Option CachedBlockHash
  trace : List Call
deriving DecidableEq, Repr

/-- How a `PreBlocker` run ends: it returns an error value (`none` for nil),
the process exits through `os.Exit(0)`, or indexing panics. -/
inductive Outcome where
  | returned (err : Option GoError)
  | exited
  | panicked
deriving DecidableEq, Repr

/-- Record one keeper call. -/
def World.call (w : World) (c : Call) : World :=
  { w with trace := w.trace ++ [c] }

/-- The cache writes among a list of calls, in order. -/
def cacheWrites : List Call → List CachedBlockHash
  | [] => []
  | .cacheBlockHash c :: t => c :: cacheWrites t
  | _ :: t => cacheWrites t

/-- The external block lookups among a list of calls, in order. -/
def blockLookups : List Call → List Call
  | [] => []
  | .getBlockByHash h :: t => .getBlockByHash h :: blockLookups t
  | .getBlockByNumber n :: t => .getBlockByNumber n :: blockLookups t
  | _ :: t => blockLookups t

/-- The resolver calls among a list of calls. -/
def resolverCalls : List Call → Nat
  | [] => 0
  | .getFinalizedBlockHash :: t => resolverCalls t + 1
  | _ :: t => resolverCalls t

/-- `k.GetFinalizedBlockHash(ctx)`. -/
def GetFinalizedBlockHash (k : Keeper) (w : World) : Except GoError String × World :=
  (k.finalizedBlockHash, w.call .getFinalizedBlockHash)

/-- `k.GetBlockByHash(ctx, hash)`. -/
def GetBlockByHash (k : Keeper) (w : World) (hash : String) : Except GoError Block × World :=
  (k.blockByHash hash, w.call (.getBlockByHash hash))

/-- `k.GetBlockByNumber(ctx, number)`. -/
def GetBlockByNumber (k : Keeper) (w : World) (number : Int) : Except GoError Block × World :=
  (k.blockByNumber number, w.call (.getBlockByNumber number))

/-- `k.GetMinBlockTimestamp(ctx)`. -/
def GetMinBlockTimestamp (k : Keeper) (w : World) : Nat × World :=
  (k.minBlockTimestamp, w.call .getMinBlockTimestamp)

/-- Modelled from the spec: `Keeper.CacheBlockHash`, a keeper method defined
outside `proposal.go`.  The cached-result store is a simple keyed overwrite of one
`CachedBlockHash` value: a write that reports no error leaves the slot holding
the written value.  A write that reports an error is taken to leave the slot
as it was; no theorem below depends on that choice. -/
def CacheBlockHash (k : Keeper) (w : World) (c : CachedBlockHash) : Option GoError × World :=
  match k.cacheWriteError c with
  | none => (none, { w.call (.cacheBlockHash c) with cache := some c })
  | some err => (some err, w.call (.cacheBlockHash c))

/-- The Go conversion `int64(x)` of a `uint64` value: the same 64 bits read as
two's complement. -/
def toInt64 (x : Nat) : Int :=
  if x % 2 ^ 64 < 2 ^ 63 then ((x % 2 ^ 64 : Nat) : Int) else ((x % 2 ^ 64 : Nat) : Int) - 2 ^ 64

/-! ## The handlers -/

/-- `ProposalHandler.PrepareProposal`: the handler it returns, applied to a
request.  `%` on `int64` truncates towards zero, which is `Int.tmod`. -/
def PrepareProposal (p : Consts) (j : JSON) (k : Keeper)
    (req : PrepareProposalRequest) (w : World) :
    Except GoError PrepareProposalResponse × World :=
  let proposalTxs := req.Txs
  if req.Height.tmod p.SYMBIOTIC_SYNC_PERIOD ≠ 0 then
    (.ok { Txs := proposalTxs }, w)
  else
    match GetFinalizedBlockHash k w with
    | (res, w1) =>
      let blockHash :=
        match res with
        | .ok blockHash => blockHash
        | .error _ => p.INVALID_BLOCKHASH
      match j.Marshal blockHash with
      | .error _ =>
        (.error { msg := "failed to encode injected vote extension tx", isNotFound := false }, w1)
      | .ok bz =>
        (.ok { Txs := [bz] ++ proposalTxs }, w1)

/-- `ProposalHandler.PreBlocker`: the handler it returns, applied to a
request.  The logger calls are left out: they change nothing the handler or
its callers read. -/
def PreBlocker (p : Consts) (j : JSON) (k : Keeper) (ctx : Context)
    (req : FinalizeBlockRequest) (w : World) : Outcome × World :=
  if req.Height.tmod p.SYMBIOTIC_SYNC_PERIOD ≠ 0 ∨ req.Txs.length = 0 then
    (.returned none, w)
  else
    let skipBlockHash : CachedBlockHash :=
      { BlockHash := p.INVALID_BLOCKHASH, Height := req.Height }
    match req.Txs[0]? with
    | none => (.panicked, w)
    | some tx0 =>
      match j.Unmarshal tx0 with
      | .error err => (.returned (some err), w)
      | .ok blockHash =>
        if blockHash = p.INVALID_BLOCKHASH then
          match CacheBlockHash k w skipBlockHash with
          | (err, w1) => (.returned err, w1)
        else
          match GetBlockByHash k w blockHash with
          | (.error err, w1) =>
            if err.isNotFound then
              match CacheBlockHash k w1 skipBlockHash with
              | (err, w2) => (.returned err, w2)
            else
              (.exited, w1)
          | (.ok block, w1) =>
            match GetBlockByNumber k w1 block.Number with
            | (.error _, w2) => (.exited, w2)
            | (.ok block, w2) =>
              if block.Hash ≠ blockHash then
                match CacheBlockHash k w2 skipBlockHash with
                | (err, w3) => (.returned err, w3)
              else if block.Time < w2.prevBlockTime
                  ∨ toInt64 block.Time ≥ ctx.HeaderTimeUnix then
                match CacheBlockHash k w2 skipBlockHash with
                | (err, w3) => (.returned err, w3)
              else
                match GetMinBlockTimestamp k w2 with
                | (minTs, w3) =>
                  if block.Time < minTs then
                    match CacheBlockHash k w3 skipBlockHash with
                    | (err, w4) => (.returned err, w4)
                  else
                    match CacheBlockHash k w3
                        { BlockHash := blockHash, Height := req.Height } with
                    | (some err, w4) => (.returned (some err), w4)
                    | (none, w4) =>
                      (.returned none, { w4 with prevBlockTime := block.Time })

/-! ## Concrete instances used to run the handlers -/

/-- A JSON codec for strings that need no escaping: the text between two
double quotes (code 34), one number per character. -/
def quoteJSON : JSON where
  Marshal := fun s => .ok ([34] ++ s.toList.map Char.toNat ++ [34])
  Unmarshal := fun bz =>
    match bz with
    | 34 :: t =>
      if t.getLast? = some 34 then .ok (String.mk (t.dropLast.map Char.ofNat))
      else .error { msg := "invalid character", isNotFound := false }
    | _ => .error { msg := "invalid character", isNotFound := false }

/-- Sync period 100 and sentinel `"invalid"`. -/
def demoConsts : Consts where
  SYMBIOTIC_SYNC_PERIOD := 100
  INVALID_BLOCKHASH := "invalid"

/-- The error `ethereum.NotFound`. -/
def notFound : GoError := { msg := "not found", isNotFound := true }

/-- Some error other than `ethereum.NotFound`. -/
def otherError : GoError := { msg := "connection refused", isNotFound := false }

/-- An external chain on which hash `"0xab"` resolves to a block of number 7
and time `t`, and number 7 resolves to the block of hash `canon` and time `t`;
the resolver answers `res`; the minimum timestamp is `minTs`; cache writes
succeed. -/
def demoKeeper (res : Except GoError String) (canon : String) (t minTs : Nat) : Keeper where
  finalizedBlockHash := res
  blockByHash := fun h =>
    if h = "0xab" then .ok { Number := 7, Hash := "0xab", Time := t } else .error notFound
  blockByNumber := fun n =>
    if n = 7 then .ok { Number := 7, Hash := canon, Time := t } else .error notFound
  minBlockTimestamp := minTs
  cacheWriteError := fun _ => none

/-- The encoding of `"0xab"` under `quoteJSON`. -/
def txAB : Tx := [34, 48, 120, 97, 98, 34]

/-- The encoding of `"0xcd"` under `quoteJSON`. -/
def txCD : Tx := [34, 48, 120, 99, 100, 34]

/-- The encoding of `"invalid"` under `quoteJSON`. -/
def txInvalid : Tx := [34, 105, 110, 118, 97, 108, 105, 100, 34]

/-- A freshly constructed handler with an empty store. -/
def World.init : World := { prevBlockTime := 0, cache := none, trace := [] }


/-! ## Outcomes of a validation run -/

/-- The record written on every skip: `CachedBlockHash{INVALID_BLOCKHASH, req.Height}`. -/
def skipRecord (p : Consts) (req : FinalizeBlockRequest) : CachedBlockHash :=
  { BlockHash := p.INVALID_BLOCKHASH, Height := req.Height }

/-- The `Skipped` outcome of a run with result `r` started in `w`: the run
issued exactly one cache write, of the skip record; it returned what that
write returned; `prevBlockTime` is as before; and when the write reported no
error the store holds the skip record. -/
def Skipped (p : Consts) (k : Keeper) (req : FinalizeBlockRequest) (w : World)
    (r : Outcome × World) : Prop :=
  r.1 = .returned (k.cacheWriteError (skipRecord p req)) ∧
  cacheWrites r.2.trace = cacheWrites w.trace ++ [skipRecord p req] ∧
  r.2.prevBlockTime = w.prevBlockTime ∧
  (k.cacheWriteError (skipRecord p req) = none → r.2.cache = some (skipRecord p req))

/-- The hash the proposer serialises: the resolver's answer, or the sentinel
when the resolver reports an error. -/
def candidate (p : Consts) (k : Keeper) : String :=
  match k.finalizedBlockHash with
  | .ok blockHash => blockHash
  | .error _ => p.INVALID_BLOCKHASH

/-- The `encoding/json` fact that `Marshal` reports no error on a string. -/
def JSON.MarshalsStrings (j : JSON) : Prop :=
  ∀ s : String, ∃ bz : Tx, j.Marshal s = .ok bz

/-- The `encoding/json` fact, for one string `s`, that `Unmarshal` gives `s`
back from what `Marshal` produced for it. -/
def JSON.RoundTrips (j : JSON) (s : String) : Prop :=
  ∀ bz : Tx, j.Marshal s = .ok bz → j.Unmarshal bz = .ok s

/-- An external chain that gives the same answer to every lookup by hash and
the same answer to every lookup by number; the resolver answers `"0xab"`;
cache writes succeed. -/
def constKeeper (byHash byNumber : Except GoError Block) (minTs : Nat) : Keeper where
  finalizedBlockHash := .ok "0xab"
  blockByHash := fun _ => byHash
  blockByNumber := fun _ => byNumber
  minBlockTimestamp := minTs
  cacheWriteError := fun _ => none

/-! ## The decision of a validation run

`verdict` reads the branch structure of `PreBlocker` off its source, without
the effects; `preBlocker_settles` below proves that `PreBlocker` does what the
verdict says.  It is a device of the proofs: the theorems on the claims are
stated on `PreBlocker` itself. -/

/-- Where a `PreBlocker` run ends: the early return, the return of a decode
error, the exit on a lookup error, a skip write, or the write of the candidate
hash with the time of its block. -/
inductive Verdict where
  | idle
  | undecodable (err : GoError)
  | halted
  | skip
  | accept (blockHash : String) (time : Nat)
deriving DecidableEq, Repr

/-- The branch `PreBlocker` takes, as a function of the request, the keeper
answers and `prevBlockTime`. -/
def verdict (p : Consts) (j : JSON) (k : Keeper) (ctx : Context)
    (req : FinalizeBlockRequest) (prev : Nat) : Verdict :=
  if req.Height.tmod p.SYMBIOTIC_SYNC_PERIOD ≠ 0 then .idle
  else
    match req.Txs with
    | [] => .idle
    | tx0 :: _ =>
      match j.Unmarshal tx0 with
      | .error err => .undecodable err
      | .ok blockHash =>
        if blockHash = p.INVALID_BLOCKHASH then .skip
        else
          match k.blockByHash blockHash with
          | .error err => if err.isNotFound then .skip else .halted
          | .ok found =>
            match k.blockByNumber found.Number with
            | .error _ => .halted
            | .ok block =>
              if block.Hash ≠ blockHash then .skip
              else if block.Time < prev ∨ toInt64 block.Time ≥ ctx.HeaderTimeUnix
                  ∨ block.Time < k.minBlockTimestamp then .skip
              else .accept blockHash block.Time

/-- The cache writes a run with this verdict issues. -/
def Verdict.writes (p : Consts) (req : FinalizeBlockRequest) : Verdict → List CachedBlockHash
  | .skip => [skipRecord p req]
  | .accept blockHash _ => [{ BlockHash := blockHash, Height := req.Height }]
  | _ => []

/-- How a run with this verdict ends. -/
def Verdict.outcome (p : Consts) (k : Keeper) (req : FinalizeBlockRequest) : Verdict → Outcome
  | .idle => .returned none
  | .undecodable err => .returned (some err)
  | .halted => .exited
  | .skip => .returned (k.cacheWriteError (skipRecord p req))
  | .accept blockHash _ =>
    .returned (k.cacheWriteError { BlockHash := blockHash, Height := req.Height })

/-- The value of `prevBlockTime` after a run with this verdict started at `prev`. -/
def Verdict.nextPrev (k : Keeper) (req : FinalizeBlockRequest) (prev : Nat) : Verdict → Nat
  | .accept blockHash time =>
    if k.cacheWriteError { BlockHash := blockHash, Height := req.Height } = none then time
    else prev
  | _ => prev

/-- The store slot after a run with this verdict started with slot `old`. -/
def Verdict.nextCache (p : Consts) (k : Keeper) (req : FinalizeBlockRequest)
    (old : Option CachedBlockHash) : Verdict → Option CachedBlockHash
  | .skip =>
    if k.cacheWriteError (skipRecord p req) = none then some (skipRecord p req) else old
  | .accept blockHash _ =>
    if k.cacheWriteError { BlockHash := blockHash, Height := req.Height } = none then
      some { BlockHash := blockHash, Height := req.Height }
    else old
  | _ => old

/-- A state like `World.init` but with the given `prevBlockTime`. -/
def World.withPrev (prev : Nat) : World := { prevBlockTime := prev, cache := none, trace := [] }

/-! ## The validator-set synchronizer

`Keeper.SymbioticUpdateValidatorsPower` and the functions it calls in
`x/symStaking/keeper/symbiotic_state_change.go`.  The HTTP client, the
Ethereum client and the ABI coder are parameters (`Remote`); the staking store
is a list of validators. -/

/-- A consensus address, `[]byte`. -/
abbrev ConsAddress := List Nat

/-- The struct `keeper.Validator`, one tuple of the external table: `Stake` is
a `*big.Int` decoded from a `uint256`, `ConsAddr` a `[32]byte`. -/
structure keeper.Validator where
  Stake : Nat
  ConsAddr : ConsAddress
deriving DecidableEq, Repr

/-- The struct `types.Description`. -/
structure types.Description where
  Moniker : String
  Identity : String
  Website : String
  SecurityContact : String
  Details : String
deriving DecidableEq, Repr

/-- The struct `types.Commission` as `NewCommission` fills it: three decimals,
in units of `10 ^ (-18)`, and the time of the last update. -/
structure types.Commission where
  Rate : Int
  MaxRate : Int
  MaxChangeRate : Int
  UpdateTime : Int
deriving DecidableEq, Repr

/-- The struct `types.Validator`, with the fields `NewValidator` sets.  The
consensus key is kept by its address (`GetConsAddr`), which is all the
synchronizer uses of it; `Tokens` is a `math.Int`. -/
structure types.Validator where
  OperatorAddress : String
  ConsAddr : ConsAddress
  Jailed : Bool
  Status : Int
  Tokens : Int
  Description : types.Description
  UnbondingHeight : Int
  UnbondingTime : Int
  Commission : types.Commission
deriving DecidableEq, Repr

/-- The struct `FinalityUpdate`: the two block hashes read from the decoded
payload, `Data.FinalizedHeader.ExecutionPayloadHeader.BlockHash` and
`Data.AttestedHeader.ExecutionPayloadHeader.BlockHash`. -/
structure FinalityUpdate where
  FinalizedBlockHash : String
  AttestedBlockHash : String
deriving DecidableEq, Repr

/-- An `http.Response` as far as it is read: the status code and the result of
`ioutil.ReadAll(resp.Body)`. -/
structure HTTPResponse where
  StatusCode : Int
  Body : Except GoError (List Nat)

/-- The keeper fields the synchronizer reads. -/
structure SymbioticConfig where
  beaconAPIURL : String
  ethAPIURL : String
  networkMiddlewareAddress : String
  debug : Bool
deriving DecidableEq, Repr

/-- The answers of the libraries and remote services during one synchronizer
run: `http.Get`, `json.Unmarshal` into a `FinalityUpdate`, `ethclient.Dial`
(`none` for a client), `client.CallContractAtHash` by contract address, call
data and block hash, `abi.JSON` on the constant interface description (`none`
for a parsed interface), `contractABI.Pack` of the epoch and
`contractABI.UnpackIntoInterface` of the call result. -/
structure Remote where
  httpGet : String → Except GoError HTTPResponse
  unmarshalFinalityUpdate : List Nat → Except GoError FinalityUpdate
  dial : String → Option GoError
  callContractAtHash : String → List Nat → String → Except GoError (List Nat)
  abiJSON : Option GoError
  pack : Nat → Except GoError (List Nat)
  unpack : List Nat → Except GoError (List keeper.Validator)

/-- The constant `FINALITY_UPDATE_PATH`. -/
def FINALITY_UPDATE_PATH : String := "/eth/v1/beacon/light_client/finality_update"

/-- The bytes `common.Hex2Bytes(GET_CURRENT_EPOCH_SELECTOR)`, for the selector
`"b97dd9e2"`. -/
def GET_CURRENT_EPOCH_SELECTOR : List Nat := [0xb9, 0x7d, 0xd9, 0xe2]

/-- The value `new(big.Int).SetBytes(b)`: the bytes read as a big-endian
unsigned integer. -/
def SetBytes (b : List Nat) : Nat :=
  b.foldl (fun acc x => acc * 256 + x) 0

/-- The value `math.NewIntFromBigInt(i)` for a stake decoded from a `uint256`,
which fits the 256 bits of a `math.Int`. -/
def NewIntFromBigInt (i : Nat) : Int := i

/-- `Keeper.getFinalizedBlockHash`. -/
def getFinalizedBlockHash (c : SymbioticConfig) (r : Remote) : Except GoError String :=
  match r.httpGet (c.beaconAPIURL ++ FINALITY_UPDATE_PATH) with
  | .error err => .error { msg := "error making HTTP request: " ++ err.msg, isNotFound := false }
  | .ok resp =>
    if resp.StatusCode ≠ 200 then
      .error { msg := "unexpected status code: " ++ toString resp.StatusCode,
               isNotFound := false }
    else
      match resp.Body with
      | .error err =>
        .error { msg := "error reading response body: " ++ err.msg, isNotFound := false }
      | .ok body =>
        match r.unmarshalFinalityUpdate body with
        | .error err =>
          .error { msg := "error unmarshaling JSON: " ++ err.msg, isNotFound := false }
        | .ok finalityUpdate =>
          if c.debug then .ok finalityUpdate.AttestedBlockHash
          else .ok finalityUpdate.FinalizedBlockHash

/-- `Keeper.getCurrentEpoch`. -/
def getCurrentEpoch (c : SymbioticConfig) (r : Remote) (blockHash : String) :
    Except GoError Nat :=
  match r.dial c.ethAPIURL with
  | some err => .error err
  | none =>
    match r.callContractAtHash c.networkMiddlewareAddress GET_CURRENT_EPOCH_SELECTOR
        blockHash with
    | .error err => .error err
    | .ok result => .ok (SetBytes result)

/-- `Keeper.GetSymbioticValidatorSet`. -/
def GetSymbioticValidatorSet (c : SymbioticConfig) (r : Remote) (blockHash : String) :
    Except GoError (List keeper.Validator) :=
  match r.dial c.ethAPIURL with
  | some err => .error err
  | none =>
    match getCurrentEpoch c r blockHash with
    | .error err => .error err
    | .ok currentEpoch =>
      match r.abiJSON with
      | some err => .error err
      | none =>
        match r.pack currentEpoch with
        | .error err => .error err
        | .ok data =>
          match r.callContractAtHash c.networkMiddlewareAddress data blockHash with
          | .error err => .error err
          | .ok result =>
            match r.unpack result with
            | .error err => .error err
            | .ok validators => .ok validators

/-- The error of a validator lookup: `stakingtypes.ErrNoValidatorFound` (any
error for which `errors.Is(err, stakingtypes.ErrNoValidatorFound)` holds), or
another error. -/
inductive LookupError where
  | noValidatorFound
  | other (err : GoError)
deriving DecidableEq, Repr

/-- Modelled from the spec: `Keeper.GetValidatorByConsAddr`, a keeper method
defined outside `symbiotic_state_change.go`.  It looks the local validator up
by consensus address and reports the distinguished `NoValidatorFound` error
when there is none; `failure` is the store error met by this lookup, if any. -/
def GetValidatorByConsAddr (failure : Option GoError) (store : List types.Validator)
    (consAddr : ConsAddress) : Except LookupError types.Validator :=
  match failure with
  | some err => .error (.other err)
  | none =>
    match store.find? (fun v => v.ConsAddr = consAddr) with
    | some val => .ok val
    | none => .error .noValidatorFound

/-- Modelled from the spec: `Keeper.SetValidatorTokens`, a keeper method
defined outside `symbiotic_state_change.go`.  It stores the given validator
with `Tokens := tokens`, a full overwrite, in place of the validator of the
same consensus address. -/
def SetValidatorTokens (store : List types.Validator) (val : types.Validator)
    (tokens : Int) : List types.Validator :=
  store.map (fun v => if v.ConsAddr = val.ConsAddr then { val with Tokens := tokens } else v)

/-- The `for` loop of `SymbioticUpdateValidatorsPower` over the tuples that
remain, `i` being the position of the first of them; `failure i` is the store
error met by the lookup made for the tuple at position `i`.  The result is the
error the loop returns with, if any, and the store it leaves. -/
def updateValidators (failure : Nat → Option GoError) :
    Nat → List keeper.Validator → List types.Validator → Option GoError × List types.Validator
  | _, [], store => (none, store)
  | i, v :: rest, store =>
    match GetValidatorByConsAddr (failure i) store v.ConsAddr with
    | .error .noValidatorFound => updateValidators failure (i + 1) rest store
    | .error (.other err) => (some err, store)
    | .ok val =>
      updateValidators failure (i + 1) rest
        (SetValidatorTokens store val (NewIntFromBigInt v.Stake))

/-- `Keeper.SymbioticUpdateValidatorsPower`: the pair it returns (the string,
and the error, `none` for nil) and the store it leaves. -/
def SymbioticUpdateValidatorsPower (c : SymbioticConfig) (r : Remote)
    (failure : Nat → Option GoError) (store : List types.Validator) :
    (String × Option GoError) × List types.Validator :=
  match getFinalizedBlockHash c r with
  | .error err => (("", some err), store)
  | .ok blockHash =>
    match GetSymbioticValidatorSet c r blockHash with
    | .error err => (("", some err), store)
    | .ok validators =>
      match updateValidators failure 0 validators store with
      | (some err, store1) => (("", some err), store1)
      | (none, store1) => ((blockHash, none), store1)

/-- The stake of the last tuple of a table that carries the consensus address
`a`, if any tuple does. -/
def lastStake : List keeper.Validator → ConsAddress → Option Nat
  | [], _ => none
  | v :: rest, a =>
    match lastStake rest a with
    | some s => some s
    | none => if v.ConsAddr = a then some v.Stake else none

/-- A synchronizer configuration for the demonstration runs. -/
def demoConfig : SymbioticConfig where
  beaconAPIURL := "http://beacon"
  ethAPIURL := "http://eth"
  networkMiddlewareAddress := "0x01"
  debug := false

/-- Remote services that answer every request: the finalized hash is `"0xab"`,
the attested hash `"0xcd"`, the epoch bytes are `[0, 3]`, and the validator
set decodes to `table`. -/
def demoRemote (table : List keeper.Validator) : Remote where
  httpGet := fun _ => .ok { StatusCode := 200, Body := .ok [1] }
  unmarshalFinalityUpdate := fun _ =>
    .ok { FinalizedBlockHash := "0xab", AttestedBlockHash := "0xcd" }
  dial := fun _ => none
  callContractAtHash := fun _ data _ =>
    if data = GET_CURRENT_EPOCH_SELECTOR then .ok [0, 3] else .ok [9]
  abiJSON := none
  pack := fun epoch => .ok [epoch]
  unpack := fun _ => .ok table

/-- A local validator with the given operator address, consensus address and
tokens, otherwise as `NewValidator` makes it. -/
def demoValidator (operator : String) (consAddr : ConsAddress) (tokens : Int) :
    types.Validator where
  OperatorAddress := operator
  ConsAddr := consAddr
  Jailed := false
  Status := 1
  Tokens := tokens
  Description :=
    { Moniker := operator, Identity := "", Website := "", SecurityContact := "", Details := "" }
  UnbondingHeight := 0
  UnbondingTime := 0
  Commission := { Rate := 0, MaxRate := 0, MaxChangeRate := 0, UpdateTime := 0 }

/-- Remote services that resolve the finalized hash `"0xab"` and refuse every
contract call. -/
def refusingRemote : Remote where
  httpGet := fun _ => .ok { StatusCode := 200, Body := .ok [1] }
  unmarshalFinalityUpdate := fun _ =>
    .ok { FinalizedBlockHash := "0xab", AttestedBlockHash := "0xcd" }
  dial := fun _ => none
  callContractAtHash := fun _ _ _ => .error otherError
  abiJSON := none
  pack := fun epoch => .ok [epoch]
  unpack := fun _ => .ok []

/-- A store that fails the lookup made for the tuple at position `k`, and no
other. -/
def failAt (k : Nat) : Nat → Option GoError :=
  fun n => if n = k then some otherError else none

/-! ## The endpoint pools (`x/symStaking/keeper/keeper.go`) -/

/-- The pieces of a list of characters between the occurrences of `sep`. -/
def splitChars (sep : Char) : List Char → List (List Char)
  | [] => [[]]
  | c :: cs =>
    if c = sep then [] :: splitChars sep cs
    else
      match splitChars sep cs with
      | [] => [[c]]
      | piece :: pieces => (c :: piece) :: pieces

/-- The Go library function `strings.Split(s, sep)` for a separator of one
character: the substrings of `s` between the occurrences of `sep`. -/
def strings.Split (s : String) (sep : Char) : List String :=
  (splitChars sep s.toList).map String.mk

/-- The Go library function `rand.Intn(n)`: a panic for `n ≤ 0` (`none`),
otherwise a number below `n`; `draw` is the value the random source gives. -/
def rand.Intn (draw : Nat) (n : Nat) : Option Nat :=
  if n = 0 then none else some (draw % n)

/-- The keeper fields `NewKeeper` fills from the environment. -/
structure KeeperEnv where
  beaconApiUrls : List String
  ethApiUrls : List String
  networkMiddlewareAddress : String
  debug : Bool
deriving DecidableEq, Repr

/-- `NewKeeper`, from the read of `BEACON_API_URLS` on: the four keeper fields
taken from the environment; `getenv` is `os.Getenv`, which gives the empty
string for a variable that is not set. -/
def NewKeeper (getenv : String → String) : KeeperEnv :=
  let beaconApiUrls := strings.Split (getenv "BEACON_API_URLS") ','
  let beaconApiUrls :=
    if beaconApiUrls.length = 1 ∧ beaconApiUrls[0]? = some "" then
      ((beaconApiUrls.set 0 "https://eth-holesky-beacon.public.blastapi.io")
        ++ ["http://unstable.holesky.beacon-api.nimbus.team"])
        ++ ["https://ethereum-holesky-beacon-api.publicnode.com"]
    else beaconApiUrls
  let ethApiUrls := strings.Split (getenv "ETH_API_URLS") ','
  let ethApiUrls :=
    if ethApiUrls.length = 1 ∧ ethApiUrls[0]? = some "" then
      ((((ethApiUrls.set 0 "https://rpc.ankr.com/eth_holesky")
        ++ ["https://ethereum-holesky.blockpi.network/v1/rpc/public"])
        ++ ["https://eth-holesky.public.blastapi.io"])
        ++ ["https://ethereum-holesky.gateway.tatum.io"])
        ++ ["https://holesky.gateway.tenderly.co"]
    else ethApiUrls
  let networkMiddlewareAddress := getenv "MIDDLEWARE_ADDRESS"
  let debug := getenv "DEBUG" ≠ ""
  { beaconApiUrls := beaconApiUrls
    ethApiUrls := ethApiUrls
    networkMiddlewareAddress := networkMiddlewareAddress
    debug := debug }

/-- `Keeper.GetEthApiUrl`; `none` is a panic, of `rand.Intn` or of the index. -/
def GetEthApiUrl (k : KeeperEnv) (draw : Nat) : Option String :=
  match rand.Intn draw k.ethApiUrls.length with
  | none => none
  | some i => k.ethApiUrls[i]?

/-- `Keeper.GetBeaconApiUrl`; `none` is a panic, of `rand.Intn` or of the
index. -/
def GetBeaconApiUrl (k : KeeperEnv) (draw : Nat) : Option String :=
  match rand.Intn draw k.beaconApiUrls.length with
  | none => none
  | some i => k.beaconApiUrls[i]?

/-- The three default endpoints of the header pool. -/
def defaultBeaconApiUrls : List String :=
  ["https://eth-holesky-beacon.public.blastapi.io",
   "http://unstable.holesky.beacon-api.nimbus.team",
   "https://ethereum-holesky-beacon-api.publicnode.com"]

/-- The five default endpoints of the contract-query pool. -/
def defaultEthApiUrls : List String :=
  ["https://rpc.ankr.com/eth_holesky",
   "https://ethereum-holesky.blockpi.network/v1/rpc/public",
   "https://eth-holesky.public.blastapi.io",
   "https://ethereum-holesky.gateway.tatum.io",
   "https://holesky.gateway.tenderly.co"]

/-! ## Validator descriptions (`x/symStaking/types/validator.go`) -/

/-- The constant `MaxMonikerLength`. -/
def types.MaxMonikerLength : Nat := 70

/-- The constant `MaxIdentityLength`. -/
def types.MaxIdentityLength : Nat := 3000

/-- The constant `MaxWebsiteLength`. -/
def types.MaxWebsiteLength : Nat := 140

/-- The constant `MaxSecurityContactLength`. -/
def types.MaxSecurityContactLength : Nat := 140

/-- The constant `MaxDetailsLength`. -/
def types.MaxDetailsLength : Nat := 280

/-- The constant `DoNotModifyDesc`. -/
def types.DoNotModifyDesc : String := "[do-not-modify]"

/-- The Go built-in `len` on a string: its number of bytes. -/
def len (s : String) : Nat := s.utf8ByteSize

/-- The error `errors.Wrapf(sdkerrors.ErrInvalidRequest, "invalid <field>
length; got: %d, max: %d", got, max)`. -/
def invalidLength (field : String) (got max : Nat) : GoError :=
  { msg := "invalid " ++ field ++ " length; got: " ++ toString got ++ ", max: "
      ++ toString max ++ ": invalid request",
    isNotFound := false }

/-- `NewDescription`. -/
def types.NewDescription (moniker identity website securityContact details : String) :
    types.Description :=
  { Moniker := moniker
    Identity := identity
    Website := website
    SecurityContact := securityContact
    Details := details }

/-- `Description.EnsureLength`: the description and the error (`none` for nil). -/
def types.Description.EnsureLength (d : types.Description) :
    types.Description × Option GoError :=
  if len d.Moniker > types.MaxMonikerLength then
    (d, some (invalidLength "moniker" (len d.Moniker) types.MaxMonikerLength))
  else if len d.Identity > types.MaxIdentityLength then
    (d, some (invalidLength "identity" (len d.Identity) types.MaxIdentityLength))
  else if len d.Website > types.MaxWebsiteLength then
    (d, some (invalidLength "website" (len d.Website) types.MaxWebsiteLength))
  else if len d.SecurityContact > types.MaxSecurityContactLength then
    (d, some (invalidLength "security contact" (len d.SecurityContact)
      types.MaxSecurityContactLength))
  else if len d.Details > types.MaxDetailsLength then
    (d, some (invalidLength "details" (len d.Details) types.MaxDetailsLength))
  else
    (d, none)

/-- `Description.UpdateDescription`. -/
def types.Description.UpdateDescription (d d2 : types.Description) :
    types.Description × Option GoError :=
  let d2 := if d2.Moniker = types.DoNotModifyDesc then { d2 with Moniker := d.Moniker } else d2
  let d2 := if d2.Identity = types.DoNotModifyDesc then { d2 with Identity := d.Identity } else d2
  let d2 := if d2.Website = types.DoNotModifyDesc then { d2 with Website := d.Website } else d2
  let d2 :=
    if d2.SecurityContact = types.DoNotModifyDesc then
      { d2 with SecurityContact := d.SecurityContact }
    else d2
  let d2 := if d2.Details = types.DoNotModifyDesc then { d2 with Details := d.Details } else d2
  (types.NewDescription d2.Moniker d2.Identity d2.Website d2.SecurityContact
    d2.Details).EnsureLength

/-! ## Sequences of validation runs -/

/-- One call of `PreBlocker`: the keeper answers during the call, the context
and the request. -/
structure PreBlockerCall where
  keeper : Keeper
  ctx : Context
  req : FinalizeBlockRequest

/-- The state after a sequence of `PreBlocker` calls on one handler.  A call
that returns is followed by the next; a call that ends the process ends the
sequence. -/
def PreBlockerSeq (p : Consts) (j : JSON) : List PreBlockerCall → World → World
  | [], w => w
  | call :: rest, w =>
    match PreBlocker p j call.keeper call.ctx call.req w with
    | (.returned _, w1) => PreBlockerSeq p j rest w1
    | (_, w1) => w1

/-- The accept path of `PreBlocker` for the candidate `hash` and the block
`block`, from a state with the given `prevBlockTime`: a sync height, a first
transaction that decodes to `hash`, which is not the sentinel, a lookup by
hash that succeeds, a lookup by the found number that gives `block`, whose
hash string is `hash`, and none of the three tests of the time gate firing. -/
def OnAcceptPath (p : Consts) (j : JSON) (k : Keeper) (ctx : Context)
    (req : FinalizeBlockRequest) (prev : Nat) (hash : String) (block : Block) : Prop :=
  req.Height.tmod p.SYMBIOTIC_SYNC_PERIOD = 0 ∧
  ∃ (tx0 : Tx) (rest : List Tx) (found : Block),
    req.Txs = tx0 :: rest ∧
    j.Unmarshal tx0 = .ok hash ∧
    hash ≠ p.INVALID_BLOCKHASH ∧
    k.blockByHash hash = .ok found ∧
    k.blockByNumber found.Number = .ok block ∧
    block.Hash = hash ∧
    ¬ (block.Time < prev) ∧
    ¬ (toInt64 block.Time ≥ ctx.HeaderTimeUnix) ∧
    ¬ (block.Time < k.minBlockTimestamp)

/-! ## Auxiliary facts -/

/-- The codec `quoteJSON` encodes every string. -/
theorem quoteJSON_marshalsStrings : quoteJSON.MarshalsStrings :=
  fun _ => ⟨_, rfl⟩

/-- The codec `quoteJSON` decodes its encoding of `invalid` to `invalid`. -/
theorem quoteJSON_roundTrips_invalid : quoteJSON.RoundTrips "invalid" := by
  intro bz h
  injection h with h
  subst h
  rfl


/-- The codec `quoteJSON` decodes its encoding of `0xab` to `0xab`. -/
theorem quoteJSON_roundTrips_ab : quoteJSON.RoundTrips "0xab" := by
  intro bz h
  injection h with h
  subst h
  rfl

/-- The conversion to `int64` never exceeds the value converted. -/
theorem toInt64_le (x : Nat) : toInt64 x ≤ (x : Int) := by
  unfold toInt64
  have h : ((x % 2 ^ 64 : Nat) : Int) ≤ (x : Int) := by
    exact_mod_cast Nat.mod_le x (2 ^ 64)
  split
  · exact h
  · have : (0 : Int) ≤ 2 ^ 64 := by norm_num
    omega

/-- Below `2 ^ 63` the conversion to `int64` keeps the value. -/
theorem toInt64_of_lt (x : Nat) (h : x < 2 ^ 63) : toInt64 x = (x : Int) := by
  have h64 : x % 2 ^ 64 = x := Nat.mod_eq_of_lt (by omega)
  unfold toInt64
  rw [h64, if_pos h]

/-- The cache writes of a concatenation. -/
theorem cacheWrites_append (a b : List Call) :
    cacheWrites (a ++ b) = cacheWrites a ++ cacheWrites b := by
  induction a with
  | nil => rfl
  | cons c t ih => cases c <;> simp [cacheWrites, ih]

/-- The block lookups of a concatenation. -/
theorem blockLookups_append (a b : List Call) :
    blockLookups (a ++ b) = blockLookups a ++ blockLookups b := by
  induction a with
  | nil => rfl
  | cons c t ih => cases c <;> simp [blockLookups, ih]

/-- A skip write issued after calls that wrote nothing and left
`prevBlockTime` alone yields the `Skipped` outcome. -/
theorem skipped_of_write (p : Consts) (k : Keeper) (req : FinalizeBlockRequest)
    (w w1 : World) (hprev : w1.prevBlockTime = w.prevBlockTime)
    (htr : cacheWrites w1.trace = cacheWrites w.trace) :
    Skipped p k req w
      (match CacheBlockHash k w1 (skipRecord p req) with
       | (err, w2) => (Outcome.returned err, w2)) := by
  unfold Skipped CacheBlockHash
  cases hk : k.cacheWriteError (skipRecord p req) <;>
    simp [World.call, cacheWrites_append, cacheWrites, htr, hprev]

/-- The first two tests of the time gate: for a candidate that is found and
passes the hash comparison, a block time below `prevBlockTime`, or one whose
`int64` conversion is not below the header time, gives the `Skipped` outcome. -/
theorem skipped_of_time_gate (p : Consts) (j : JSON) (k : Keeper) (ctx : Context)
    (req : FinalizeBlockRequest) (w : World) (tx0 : Tx) (rest : List Tx)
    (hash : String) (found block : Block)
    (hsync : req.Height.tmod p.SYMBIOTIC_SYNC_PERIOD = 0)
    (htxs : req.Txs = tx0 :: rest)
    (hdec : j.Unmarshal tx0 = .ok hash)
    (hne : hash ≠ p.INVALID_BLOCKHASH)
    (hbh : k.blockByHash hash = .ok found)
    (hbn : k.blockByNumber found.Number = .ok block)
    (heq : block.Hash = hash)
    (hgate : block.Time < w.prevBlockTime ∨ toInt64 block.Time ≥ ctx.HeaderTimeUnix) :
    Skipped p k req w (PreBlocker p j k ctx req w) := by
  have hs := skipped_of_write p k req w
    ((w.call (.getBlockByHash hash)).call (.getBlockByNumber found.Number)) rfl
    (by simp [World.call, cacheWrites_append, cacheWrites])
  have hgate2 : block.Time < w.prevBlockTime ∨ ctx.HeaderTimeUnix ≤ toInt64 block.Time := hgate
  simpa [PreBlocker, hsync, htxs, hdec, hne, GetBlockByHash, hbh, GetBlockByNumber, hbn, heq,
    World.call, hgate2, skipRecord] using hs

/-! ## The validation path -/

/-- C1. PreBlocker acceptance: at a sync height, with a first transaction that
decodes to a non-sentinel hash, a successful lookup by hash, a successful
lookup by the found number whose hash string equals the candidate, a block
time that is at least `prevBlockTime`, below the header time and at least the
minimum timestamp, and a cache write that succeeds, `PreBlocker` returns nil,
the store holds the candidate hash at the request height, and `prevBlockTime`
is the block time. -/
theorem preBlocker_accepts (p : Consts) (j : JSON) (k : Keeper) (ctx : Context)
    (req : FinalizeBlockRequest) (w : World) (tx0 : Tx) (rest : List Tx)
    (hash : String) (found block : Block)
    (hsync : req.Height.tmod p.SYMBIOTIC_SYNC_PERIOD = 0)
    (htxs : req.Txs = tx0 :: rest)
    (hdec : j.Unmarshal tx0 = .ok hash)
    (hne : hash ≠ p.INVALID_BLOCKHASH)
    (hbh : k.blockByHash hash = .ok found)
    (hbn : k.blockByNumber found.Number = .ok block)
    (heq : block.Hash = hash)
    (hprev : w.prevBlockTime ≤ block.Time)
    (hhdr : (block.Time : Int) < ctx.HeaderTimeUnix)
    (hmin : k.minBlockTimestamp ≤ block.Time)
    (hwr : k.cacheWriteError { BlockHash := hash, Height := req.Height } = none) :
    (PreBlocker p j k ctx req w).1 = .returned none ∧
    (PreBlocker p j k ctx req w).2.cache = some { BlockHash := hash, Height := req.Height } ∧
    (PreBlocker p j k ctx req w).2.prevBlockTime = block.Time := by
  have hcast : toInt64 block.Time < ctx.HeaderTimeUnix :=
    lt_of_le_of_lt (toInt64_le _) hhdr
  simp [PreBlocker, hsync, htxs, hdec, hne, GetBlockByHash, hbh, GetBlockByNumber, hbn, heq,
    World.call, GetMinBlockTimestamp, CacheBlockHash, hwr, not_lt.mpr hprev, not_le.mpr hcast,
    not_lt.mpr hmin]

/-- An accepted run: block time 50, header time 60, minimum timestamp 10. -/
theorem preBlocker_accepts_witness :
    (PreBlocker demoConsts quoteJSON (demoKeeper (.ok "0xab") "0xab" 50 10) ⟨60⟩
        ⟨[txAB, [1, 2]], 100⟩ World.init).1 = .returned none ∧
    (PreBlocker demoConsts quoteJSON (demoKeeper (.ok "0xab") "0xab" 50 10) ⟨60⟩
        ⟨[txAB, [1, 2]], 100⟩ World.init).2.cache
      = some { BlockHash := "0xab", Height := 100 } ∧
    (PreBlocker demoConsts quoteJSON (demoKeeper (.ok "0xab") "0xab" 50 10) ⟨60⟩
        ⟨[txAB, [1, 2]], 100⟩ World.init).2.prevBlockTime = 50 :=
  preBlocker_accepts demoConsts quoteJSON (demoKeeper (.ok "0xab") "0xab" 50 10) ⟨60⟩
    ⟨[txAB, [1, 2]], 100⟩ World.init txAB [[1, 2]] "0xab"
    { Number := 7, Hash := "0xab", Time := 50 } { Number := 7, Hash := "0xab", Time := 50 }
    (by decide) rfl rfl (by decide) rfl rfl rfl (by decide) (by decide) (by decide) rfl

/-- C2. Monotonicity: at a sync height, for a candidate that is found and
passes the hash comparison, a block time below `prevBlockTime` gives the
`Skipped` outcome: one cache write, of the sentinel at the request height, and
`prevBlockTime` as before. -/
theorem preBlocker_skips_older_block (p : Consts) (j : JSON) (k : Keeper) (ctx : Context)
    (req : FinalizeBlockRequest) (w : World) (tx0 : Tx) (rest : List Tx)
    (hash : String) (found block : Block)
    (hsync : req.Height.tmod p.SYMBIOTIC_SYNC_PERIOD = 0)
    (htxs : req.Txs = tx0 :: rest)
    (hdec : j.Unmarshal tx0 = .ok hash)
    (hne : hash ≠ p.INVALID_BLOCKHASH)
    (hbh : k.blockByHash hash = .ok found)
    (hbn : k.blockByNumber found.Number = .ok block)
    (heq : block.Hash = hash)
    (hlt : block.Time < w.prevBlockTime) :
    Skipped p k req w (PreBlocker p j k ctx req w) :=
  skipped_of_time_gate p j k ctx req w tx0 rest hash found block hsync htxs hdec hne hbh hbn heq
    (Or.inl hlt)

/-- A skipped run: block time 50 against a `prevBlockTime` of 51. -/
theorem preBlocker_skips_older_block_witness :
    Skipped demoConsts (demoKeeper (.ok "0xab") "0xab" 50 10) ⟨[txAB], 100⟩
      { prevBlockTime := 51, cache := none, trace := [] }
      (PreBlocker demoConsts quoteJSON (demoKeeper (.ok "0xab") "0xab" 50 10) ⟨60⟩
        ⟨[txAB], 100⟩ { prevBlockTime := 51, cache := none, trace := [] }) :=
  preBlocker_skips_older_block demoConsts quoteJSON (demoKeeper (.ok "0xab") "0xab" 50 10) ⟨60⟩
    ⟨[txAB], 100⟩ { prevBlockTime := 51, cache := none, trace := [] } txAB [] "0xab"
    { Number := 7, Hash := "0xab", Time := 50 } { Number := 7, Hash := "0xab", Time := 50 }
    (by decide) rfl rfl (by decide) rfl rfl rfl (by decide)

/-- The header-time test on the lower half of the `uint64` range: for a
candidate that is found and passes the hash comparison, a block time below
`2 ^ 63` that is not below the header time gives the `Skipped` outcome. -/
theorem skipped_of_header_time (p : Consts) (j : JSON) (k : Keeper) (ctx : Context)
    (req : FinalizeBlockRequest) (w : World) (tx0 : Tx) (rest : List Tx)
    (hash : String) (found block : Block)
    (hsync : req.Height.tmod p.SYMBIOTIC_SYNC_PERIOD = 0)
    (htxs : req.Txs = tx0 :: rest)
    (hdec : j.Unmarshal tx0 = .ok hash)
    (hne : hash ≠ p.INVALID_BLOCKHASH)
    (hbh : k.blockByHash hash = .ok found)
    (hbn : k.blockByNumber found.Number = .ok block)
    (heq : block.Hash = hash)
    (hsmall : block.Time < 2 ^ 63)
    (hge : ctx.HeaderTimeUnix ≤ (block.Time : Int)) :
    Skipped p k req w (PreBlocker p j k ctx req w) :=
  skipped_of_time_gate p j k ctx req w tx0 rest hash found block hsync htxs hdec hne hbh hbn heq
    (Or.inr (by rw [toInt64_of_lt _ hsmall]; exact hge))

/-- C3, at the input where the code departs from it.  The block time `2 ^ 63`
is a `uint64` value that is not below the header time 60, yet `int64(2 ^ 63)`
is negative, the header-time test passes, and the candidate is accepted: the
store holds the candidate hash and `prevBlockTime` becomes `2 ^ 63`. -/
theorem preBlocker_accepts_time_past_header :
    (2 ^ 63 : Nat) < 2 ^ 64 ∧ ¬ (((2 ^ 63 : Nat) : Int) < 60) ∧
    toInt64 (2 ^ 63) = -(2 ^ 63) ∧
    PreBlocker demoConsts quoteJSON (demoKeeper (.ok "0xab") "0xab" (2 ^ 63) 0) ⟨60⟩
        ⟨[txAB], 100⟩ World.init
      = (.returned none,
          { prevBlockTime := 2 ^ 63,
            cache := some { BlockHash := "0xab", Height := 100 },
            trace := [.getBlockByHash "0xab", .getBlockByNumber 7, .getMinBlockTimestamp,
              .cacheBlockHash { BlockHash := "0xab", Height := 100 }] }) := by
  refine ⟨by decide, by decide, by decide, by decide⟩

/-- C4. Minimum-timestamp gate: at a sync height, for a candidate that is found
and passes the hash comparison, a block time below the minimum timestamp gives
the `Skipped` outcome, for every `prevBlockTime` and every header time. -/
theorem preBlocker_skips_below_min_timestamp (p : Consts) (j : JSON) (k : Keeper)
    (ctx : Context) (req : FinalizeBlockRequest) (w : World) (tx0 : Tx) (rest : List Tx)
    (hash : String) (found block : Block)
    (hsync : req.Height.tmod p.SYMBIOTIC_SYNC_PERIOD = 0)
    (htxs : req.Txs = tx0 :: rest)
    (hdec : j.Unmarshal tx0 = .ok hash)
    (hne : hash ≠ p.INVALID_BLOCKHASH)
    (hbh : k.blockByHash hash = .ok found)
    (hbn : k.blockByNumber found.Number = .ok block)
    (heq : block.Hash = hash)
    (hlt : block.Time < k.minBlockTimestamp) :
    Skipped p k req w (PreBlocker p j k ctx req w) := by
  by_cases hgate : block.Time < w.prevBlockTime ∨ toInt64 block.Time ≥ ctx.HeaderTimeUnix
  · exact skipped_of_time_gate p j k ctx req w tx0 rest hash found block hsync htxs hdec hne
      hbh hbn heq hgate
  · have hs := skipped_of_write p k req w
      (((w.call (.getBlockByHash hash)).call (.getBlockByNumber found.Number)).call
        .getMinBlockTimestamp) rfl
      (by simp [World.call, cacheWrites_append, cacheWrites])
    have hgate2 : ¬ (block.Time < w.prevBlockTime ∨ ctx.HeaderTimeUnix ≤ toInt64 block.Time) :=
      hgate
    simpa [PreBlocker, hsync, htxs, hdec, hne, GetBlockByHash, hbh, GetBlockByNumber, hbn, heq,
      World.call, hgate2, GetMinBlockTimestamp, hlt, skipRecord] using hs

/-- A skipped run: block time 50 against a minimum timestamp of 51. -/
theorem preBlocker_skips_below_min_timestamp_witness :
    Skipped demoConsts (demoKeeper (.ok "0xab") "0xab" 50 51) ⟨[txAB], 100⟩ World.init
      (PreBlocker demoConsts quoteJSON (demoKeeper (.ok "0xab") "0xab" 50 51) ⟨60⟩
        ⟨[txAB], 100⟩ World.init) :=
  preBlocker_skips_below_min_timestamp demoConsts quoteJSON
    (demoKeeper (.ok "0xab") "0xab" 50 51) ⟨60⟩ ⟨[txAB], 100⟩ World.init txAB [] "0xab"
    { Number := 7, Hash := "0xab", Time := 50 } { Number := 7, Hash := "0xab", Time := 50 }
    (by decide) rfl rfl (by decide) rfl rfl rfl (by decide)

/-- C5. Reorg rejection: at a sync height, when the lookup by hash succeeds and
the lookup by the found number returns a block whose hash string differs from
the candidate, the outcome is `Skipped`, whatever the time of that block. -/
theorem preBlocker_skips_reorged_block (p : Consts) (j : JSON) (k : Keeper)
    (ctx : Context) (req : FinalizeBlockRequest) (w : World) (tx0 : Tx) (rest : List Tx)
    (hash : String) (found block : Block)
    (hsync : req.Height.tmod p.SYMBIOTIC_SYNC_PERIOD = 0)
    (htxs : req.Txs = tx0 :: rest)
    (hdec : j.Unmarshal tx0 = .ok hash)
    (hne : hash ≠ p.INVALID_BLOCKHASH)
    (hbh : k.blockByHash hash = .ok found)
    (hbn : k.blockByNumber found.Number = .ok block)
    (hdiff : block.Hash ≠ hash) :
    Skipped p k req w (PreBlocker p j k ctx req w) := by
  have hs := skipped_of_write p k req w
    ((w.call (.getBlockByHash hash)).call (.getBlockByNumber found.Number)) rfl
    (by simp [World.call, cacheWrites_append, cacheWrites])
  simpa [PreBlocker, hsync, htxs, hdec, hne, GetBlockByHash, hbh, GetBlockByNumber, hbn, hdiff,
    World.call, skipRecord] using hs

/-- A skipped run: number 7 now resolves to hash `0xcd`, not `0xab`. -/
theorem preBlocker_skips_reorged_block_witness :
    Skipped demoConsts (demoKeeper (.ok "0xab") "0xcd" 50 10) ⟨[txAB], 100⟩ World.init
      (PreBlocker demoConsts quoteJSON (demoKeeper (.ok "0xab") "0xcd" 50 10) ⟨60⟩
        ⟨[txAB], 100⟩ World.init) :=
  preBlocker_skips_reorged_block demoConsts quoteJSON
    (demoKeeper (.ok "0xab") "0xcd" 50 10) ⟨60⟩ ⟨[txAB], 100⟩ World.init txAB [] "0xab"
    { Number := 7, Hash := "0xab", Time := 50 } { Number := 7, Hash := "0xcd", Time := 50 }
    (by decide) rfl rfl (by decide) rfl rfl (by decide)

/-- C6. Block not found is a skip: at a sync height with a non-sentinel
candidate, when the lookup by hash reports `NotFound`, `PreBlocker` reaches
`Skipped` (so it returns exactly what the cache write returned and leaves
`prevBlockTime` alone), its only calls are the lookup by hash and the write of
the skip record (no lookup by number), and it returns nil when the write
succeeds. -/
theorem preBlocker_skips_not_found (p : Consts) (j : JSON) (k : Keeper)
    (ctx : Context) (req : FinalizeBlockRequest) (w : World) (tx0 : Tx) (rest : List Tx)
    (hash : String) (e : GoError)
    (hsync : req.Height.tmod p.SYMBIOTIC_SYNC_PERIOD = 0)
    (htxs : req.Txs = tx0 :: rest)
    (hdec : j.Unmarshal tx0 = .ok hash)
    (hne : hash ≠ p.INVALID_BLOCKHASH)
    (hbh : k.blockByHash hash = .error e)
    (hnf : e.isNotFound = true) :
    Skipped p k req w (PreBlocker p j k ctx req w) ∧
    (PreBlocker p j k ctx req w).2.trace
      = w.trace ++ [.getBlockByHash hash, .cacheBlockHash (skipRecord p req)] ∧
    (k.cacheWriteError (skipRecord p req) = none →
      (PreBlocker p j k ctx req w).1 = .returned none) := by
  have hs := skipped_of_write p k req w (w.call (.getBlockByHash hash)) rfl
    (by simp [World.call, cacheWrites_append, cacheWrites])
  have hrun : PreBlocker p j k ctx req w
      = (match CacheBlockHash k (w.call (.getBlockByHash hash)) (skipRecord p req) with
         | (err, w2) => (Outcome.returned err, w2)) := by
    simp [PreBlocker, hsync, htxs, hdec, hne, GetBlockByHash, hbh, hnf, skipRecord]
  rw [hrun]
  refine ⟨hs, ?_, ?_⟩
  · unfold CacheBlockHash
    cases hk : k.cacheWriteError (skipRecord p req) <;> simp [World.call]
  · intro hok
    rw [hs.1, hok]

/-- A skipped run: the candidate `0xcd` is unknown to the external chain. -/
theorem preBlocker_skips_not_found_witness :
    Skipped demoConsts (demoKeeper (.ok "0xcd") "0xab" 50 10) ⟨[txCD], 100⟩ World.init
      (PreBlocker demoConsts quoteJSON (demoKeeper (.ok "0xcd") "0xab" 50 10) ⟨60⟩
        ⟨[txCD], 100⟩ World.init) ∧
    (PreBlocker demoConsts quoteJSON (demoKeeper (.ok "0xcd") "0xab" 50 10) ⟨60⟩
        ⟨[txCD], 100⟩ World.init).2.trace
      = World.init.trace ++ [.getBlockByHash "0xcd",
          .cacheBlockHash (skipRecord demoConsts ⟨[txCD], 100⟩)] ∧
    ((demoKeeper (.ok "0xcd") "0xab" 50 10).cacheWriteError
        (skipRecord demoConsts ⟨[txCD], 100⟩) = none →
      (PreBlocker demoConsts quoteJSON (demoKeeper (.ok "0xcd") "0xab" 50 10) ⟨60⟩
        ⟨[txCD], 100⟩ World.init).1 = .returned none) :=
  preBlocker_skips_not_found demoConsts quoteJSON (demoKeeper (.ok "0xcd") "0xab" 50 10) ⟨60⟩
    ⟨[txCD], 100⟩ World.init txCD [] "0xcd" notFound
    (by decide) rfl rfl (by decide) rfl rfl

/-! ## The proposer side -/

/-- The proposer at a sync height: the resolver is called once, and the
response is the serialised candidate followed by the request transactions
when `Marshal` succeeds on the candidate. -/
theorem prepareProposal_of_sync (p : Consts) (j : JSON) (k : Keeper)
    (req : PrepareProposalRequest) (w : World) (bz : Tx)
    (hsync : req.Height.tmod p.SYMBIOTIC_SYNC_PERIOD = 0)
    (henc : j.Marshal (candidate p k) = .ok bz) :
    PrepareProposal p j k req w
      = (.ok { Txs := bz :: req.Txs }, w.call .getFinalizedBlockHash) := by
  unfold candidate at henc
  cases hres : k.finalizedBlockHash <;>
    simp [hres] at henc <;>
    simp [PrepareProposal, hsync, GetFinalizedBlockHash, hres, henc]

/-- C7. Sentinel handling end to end: at a sync height, for every original
transaction list, when the resolver fails on the proposer, `PrepareProposal`
returns the encoded sentinel in front of the list; on every validator the
first transaction of that list decodes to the sentinel and `PreBlocker`
reaches `Skipped`, its only call being the write of the sentinel at that
height (no external block lookup). -/
theorem sentinel_end_to_end (p : Consts) (j : JSON) (kp kv : Keeper) (ctx : Context)
    (h : Int) (L : List Tx) (wp wv : World) (e : GoError)
    (hsync : h.tmod p.SYMBIOTIC_SYNC_PERIOD = 0)
    (hres : kp.finalizedBlockHash = .error e)
    (hm : j.MarshalsStrings)
    (hrt : j.RoundTrips p.INVALID_BLOCKHASH) :
    ∃ resp : PrepareProposalResponse,
      (PrepareProposal p j kp { Txs := L, Height := h } wp).1 = .ok resp ∧
      (∃ tx0, resp.Txs[0]? = some tx0 ∧ j.Unmarshal tx0 = .ok p.INVALID_BLOCKHASH) ∧
      Skipped p kv { Txs := resp.Txs, Height := h } wv
        (PreBlocker p j kv ctx { Txs := resp.Txs, Height := h } wv) ∧
      (PreBlocker p j kv ctx { Txs := resp.Txs, Height := h } wv).2.trace
        = wv.trace ++ [.cacheBlockHash { BlockHash := p.INVALID_BLOCKHASH, Height := h }] := by
  obtain ⟨bz, henc⟩ := hm p.INVALID_BLOCKHASH
  have hdec := hrt bz henc
  have hcand : candidate p kp = p.INVALID_BLOCKHASH := by simp [candidate, hres]
  have hpp := prepareProposal_of_sync p j kp { Txs := L, Height := h } wp bz hsync
    (by rw [hcand]; exact henc)
  have hrun : PreBlocker p j kv ctx { Txs := bz :: L, Height := h } wv
      = (match CacheBlockHash kv wv (skipRecord p { Txs := bz :: L, Height := h }) with
         | (err, w2) => (Outcome.returned err, w2)) := by
    simp [PreBlocker, hsync, hdec, skipRecord]
  refine ⟨{ Txs := bz :: L }, by rw [hpp], ⟨bz, by simp, hdec⟩, ?_, ?_⟩
  · rw [hrun]
    exact skipped_of_write p kv { Txs := bz :: L, Height := h } wv wv rfl rfl
  · rw [hrun]
    unfold CacheBlockHash skipRecord
    cases hk : kv.cacheWriteError { BlockHash := p.INVALID_BLOCKHASH, Height := h } <;>
      simp [World.call]

/-- A proposer whose resolver fails at height 200, and a validator on its block. -/
theorem sentinel_end_to_end_witness :
    ∃ resp : PrepareProposalResponse,
      (PrepareProposal demoConsts quoteJSON (demoKeeper (.error otherError) "0xab" 50 10)
        { Txs := [[1, 2]], Height := 200 } World.init).1 = .ok resp ∧
      (∃ tx0, resp.Txs[0]? = some tx0 ∧
        quoteJSON.Unmarshal tx0 = .ok demoConsts.INVALID_BLOCKHASH) ∧
      Skipped demoConsts (demoKeeper (.ok "0xab") "0xab" 50 10)
        { Txs := resp.Txs, Height := 200 } World.init
        (PreBlocker demoConsts quoteJSON (demoKeeper (.ok "0xab") "0xab" 50 10) ⟨60⟩
          { Txs := resp.Txs, Height := 200 } World.init) ∧
      (PreBlocker demoConsts quoteJSON (demoKeeper (.ok "0xab") "0xab" 50 10) ⟨60⟩
          { Txs := resp.Txs, Height := 200 } World.init).2.trace
        = World.init.trace
          ++ [.cacheBlockHash { BlockHash := demoConsts.INVALID_BLOCKHASH, Height := 200 }] :=
  sentinel_end_to_end demoConsts quoteJSON (demoKeeper (.error otherError) "0xab" 50 10)
    (demoKeeper (.ok "0xab") "0xab" 50 10) ⟨60⟩ 200 [[1, 2]] World.init World.init otherError
    (by decide) rfl quoteJSON_marshalsStrings quoteJSON_roundTrips_invalid

/-- C8. `PrepareProposal` never fails the proposal: at a sync height, for
either resolver outcome, it returns a response and no error; the first
transaction of the response is the encoding of the resolved hash when the
resolver succeeds and the encoding of the sentinel when it fails. -/
theorem prepareProposal_never_fails (p : Consts) (j : JSON) (k : Keeper)
    (req : PrepareProposalRequest) (w : World)
    (hsync : req.Height.tmod p.SYMBIOTIC_SYNC_PERIOD = 0)
    (hm : j.MarshalsStrings) :
    ∃ resp : PrepareProposalResponse,
      (PrepareProposal p j k req w).1 = .ok resp ∧
      (∀ blockHash, k.finalizedBlockHash = .ok blockHash →
        ∃ bz, j.Marshal blockHash = .ok bz ∧ resp.Txs.head? = some bz) ∧
      (∀ err, k.finalizedBlockHash = .error err →
        ∃ bz, j.Marshal p.INVALID_BLOCKHASH = .ok bz ∧ resp.Txs.head? = some bz) := by
  obtain ⟨bz, henc⟩ := hm (candidate p k)
  have hpp := prepareProposal_of_sync p j k req w bz hsync henc
  refine ⟨{ Txs := bz :: req.Txs }, by rw [hpp], ?_, ?_⟩
  · intro blockHash hres
    refine ⟨bz, ?_, rfl⟩
    simpa [candidate, hres] using henc
  · intro err hres
    refine ⟨bz, ?_, rfl⟩
    simpa [candidate, hres] using henc

/-- A proposal at height 200 whose resolver fails. -/
theorem prepareProposal_never_fails_witness :
    ∃ resp : PrepareProposalResponse,
      (PrepareProposal demoConsts quoteJSON (demoKeeper (.error otherError) "0xab" 50 10)
        { Txs := [[1, 2]], Height := 200 } World.init).1 = .ok resp ∧
      (∀ blockHash,
        (demoKeeper (.error otherError) "0xab" 50 10).finalizedBlockHash = .ok blockHash →
        ∃ bz, quoteJSON.Marshal blockHash = .ok bz ∧ resp.Txs.head? = some bz) ∧
      (∀ err, (demoKeeper (.error otherError) "0xab" 50 10).finalizedBlockHash = .error err →
        ∃ bz, quoteJSON.Marshal demoConsts.INVALID_BLOCKHASH = .ok bz ∧
          resp.Txs.head? = some bz) :=
  prepareProposal_never_fails demoConsts quoteJSON (demoKeeper (.error otherError) "0xab" 50 10)
    { Txs := [[1, 2]], Height := 200 } World.init (by decide) quoteJSON_marshalsStrings

/-- C9. `PrepareProposal` prepends exactly one transaction at a sync height:
the returned list is one longer than the request list, its first element is
the serialised candidate, and the rest is the request list, in order. -/
theorem prepareProposal_prepends_one (p : Consts) (j : JSON) (k : Keeper)
    (req : PrepareProposalRequest) (w : World)
    (hsync : req.Height.tmod p.SYMBIOTIC_SYNC_PERIOD = 0)
    (hm : j.MarshalsStrings) :
    ∃ (resp : PrepareProposalResponse) (bz : Tx),
      (PrepareProposal p j k req w).1 = .ok resp ∧
      j.Marshal (candidate p k) = .ok bz ∧
      resp.Txs.length = req.Txs.length + 1 ∧
      resp.Txs.head? = some bz ∧
      resp.Txs.tail = req.Txs := by
  obtain ⟨bz, henc⟩ := hm (candidate p k)
  have hpp := prepareProposal_of_sync p j k req w bz hsync henc
  exact ⟨{ Txs := bz :: req.Txs }, bz, by rw [hpp], henc, rfl, rfl, rfl⟩

/-- A proposal at height 100 over two request transactions. -/
theorem prepareProposal_prepends_one_witness :
    ∃ (resp : PrepareProposalResponse) (bz : Tx),
      (PrepareProposal demoConsts quoteJSON (demoKeeper (.ok "0xab") "0xab" 50 10)
        { Txs := [[1, 2], [3]], Height := 100 } World.init).1 = .ok resp ∧
      quoteJSON.Marshal (candidate demoConsts (demoKeeper (.ok "0xab") "0xab" 50 10)) = .ok bz ∧
      resp.Txs.length
        = (PrepareProposalRequest.mk [[1, 2], [3]] 100).Txs.length + 1 ∧
      resp.Txs.head? = some bz ∧
      resp.Txs.tail = (PrepareProposalRequest.mk [[1, 2], [3]] 100).Txs :=
  prepareProposal_prepends_one demoConsts quoteJSON (demoKeeper (.ok "0xab") "0xab" 50 10)
    { Txs := [[1, 2], [3]], Height := 100 } World.init (by decide) quoteJSON_marshalsStrings

/-- C10. `PrepareProposal` is a pass-through off-cycle: at a height that is not
a multiple of the sync period it returns the request transactions unchanged
and no error, and makes no keeper call, so the resolver is not called. -/
theorem prepareProposal_off_cycle (p : Consts) (j : JSON) (k : Keeper)
    (req : PrepareProposalRequest) (w : World)
    (hoff : req.Height.tmod p.SYMBIOTIC_SYNC_PERIOD ≠ 0) :
    PrepareProposal p j k req w = (.ok { Txs := req.Txs }, w) ∧
    resolverCalls (PrepareProposal p j k req w).2.trace = resolverCalls w.trace := by
  have hrun : PrepareProposal p j k req w = (.ok { Txs := req.Txs }, w) := by
    simp [PrepareProposal, hoff]
  exact ⟨hrun, by rw [hrun]⟩

/-- A proposal at height 101, off the cycle of period 100. -/
theorem prepareProposal_off_cycle_witness :
    PrepareProposal demoConsts quoteJSON (demoKeeper (.ok "0xab") "0xab" 50 10)
        { Txs := [[1, 2], [3]], Height := 101 } World.init
      = (.ok { Txs := (PrepareProposalRequest.mk [[1, 2], [3]] 101).Txs }, World.init) ∧
    resolverCalls (PrepareProposal demoConsts quoteJSON (demoKeeper (.ok "0xab") "0xab" 50 10)
        { Txs := [[1, 2], [3]], Height := 101 } World.init).2.trace
      = resolverCalls World.init.trace :=
  prepareProposal_off_cycle demoConsts quoteJSON (demoKeeper (.ok "0xab") "0xab" 50 10)
    { Txs := [[1, 2], [3]], Height := 101 } World.init (by decide)

/-! ## The run and its verdict -/

/-- The verdict describes the run: outcome, `prevBlockTime`, store slot and
cache writes of `PreBlocker` are those of its verdict. -/
theorem preBlocker_settles (p : Consts) (j : JSON) (k : Keeper) (ctx : Context)
    (req : FinalizeBlockRequest) (w : World) :
    (PreBlocker p j k ctx req w).1
      = (verdict p j k ctx req w.prevBlockTime).outcome p k req ∧
    (PreBlocker p j k ctx req w).2.prevBlockTime
      = (verdict p j k ctx req w.prevBlockTime).nextPrev k req w.prevBlockTime ∧
    (PreBlocker p j k ctx req w).2.cache
      = (verdict p j k ctx req w.prevBlockTime).nextCache p k req w.cache ∧
    cacheWrites (PreBlocker p j k ctx req w).2.trace
      = cacheWrites w.trace ++ (verdict p j k ctx req w.prevBlockTime).writes p req := by
  by_cases hs : req.Height.tmod p.SYMBIOTIC_SYNC_PERIOD = 0
  swap
  · simp [PreBlocker, verdict, hs, Verdict.outcome, Verdict.nextPrev, Verdict.nextCache,
      Verdict.writes]
  cases htx : req.Txs with
  | nil =>
    simp [PreBlocker, verdict, hs, htx, Verdict.outcome, Verdict.nextPrev, Verdict.nextCache,
      Verdict.writes]
  | cons tx0 rest =>
    cases hu : j.Unmarshal tx0 with
    | error err =>
      simp [PreBlocker, verdict, hs, htx, hu, Verdict.outcome, Verdict.nextPrev,
        Verdict.nextCache, Verdict.writes]
    | ok blockHash =>
      by_cases hv : blockHash = p.INVALID_BLOCKHASH
      · cases hc : k.cacheWriteError { BlockHash := p.INVALID_BLOCKHASH, Height := req.Height } <;>
          simp [PreBlocker, verdict, hs, htx, hu, hv, hc, CacheBlockHash, World.call,
            cacheWrites_append, cacheWrites, skipRecord, Verdict.outcome, Verdict.nextPrev,
            Verdict.nextCache, Verdict.writes]
      · cases hbh : k.blockByHash blockHash with
        | error err =>
          cases hnf : err.isNotFound
          · simp [PreBlocker, verdict, hs, htx, hu, hv, hbh, hnf, GetBlockByHash, World.call,
              cacheWrites_append, cacheWrites, Verdict.outcome, Verdict.nextPrev,
              Verdict.nextCache, Verdict.writes]
          · cases hc : k.cacheWriteError
                { BlockHash := p.INVALID_BLOCKHASH, Height := req.Height } <;>
              simp [PreBlocker, verdict, hs, htx, hu, hv, hbh, hnf, hc, GetBlockByHash,
                CacheBlockHash, World.call, cacheWrites_append, cacheWrites, skipRecord,
                Verdict.outcome, Verdict.nextPrev, Verdict.nextCache, Verdict.writes]
        | ok found =>
          cases hbn : k.blockByNumber found.Number with
          | error err =>
            simp [PreBlocker, verdict, hs, htx, hu, hv, hbh, hbn, GetBlockByHash,
              GetBlockByNumber, World.call, cacheWrites_append, cacheWrites, Verdict.outcome,
              Verdict.nextPrev, Verdict.nextCache, Verdict.writes]
          | ok block =>
            by_cases hh : block.Hash = blockHash
            swap
            · cases hc : k.cacheWriteError
                  { BlockHash := p.INVALID_BLOCKHASH, Height := req.Height } <;>
                simp [PreBlocker, verdict, hs, htx, hu, hv, hbh, hbn, hh, hc, GetBlockByHash,
                  GetBlockByNumber, CacheBlockHash, World.call, cacheWrites_append, cacheWrites,
                  skipRecord, Verdict.outcome, Verdict.nextPrev, Verdict.nextCache,
                  Verdict.writes]
            by_cases hg : block.Time < w.prevBlockTime ∨ ctx.HeaderTimeUnix ≤ toInt64 block.Time
            · cases hc : k.cacheWriteError
                  { BlockHash := p.INVALID_BLOCKHASH, Height := req.Height } <;>
                simp [PreBlocker, verdict, hs, htx, hu, hv, hbh, hbn, hh, hg, hc, GetBlockByHash,
                  GetBlockByNumber, CacheBlockHash, World.call, cacheWrites_append, cacheWrites,
                  skipRecord, Verdict.outcome, Verdict.nextPrev, Verdict.nextCache,
                  Verdict.writes, ← or_assoc]
            by_cases hm : block.Time < k.minBlockTimestamp
            · cases hc : k.cacheWriteError
                  { BlockHash := p.INVALID_BLOCKHASH, Height := req.Height } <;>
                simp [PreBlocker, verdict, hs, htx, hu, hv, hbh, hbn, hh, hg, hm, hc,
                  GetBlockByHash, GetBlockByNumber, GetMinBlockTimestamp, CacheBlockHash,
                  World.call, cacheWrites_append, cacheWrites, skipRecord, Verdict.outcome,
                  Verdict.nextPrev, Verdict.nextCache, Verdict.writes]
            · have hg3 : ¬ (block.Time < w.prevBlockTime ∨ ctx.HeaderTimeUnix ≤ toInt64 block.Time
                  ∨ block.Time < k.minBlockTimestamp) := by
                rw [← or_assoc]
                exact fun h => h.elim hg hm
              cases hc : k.cacheWriteError { BlockHash := blockHash, Height := req.Height } <;>
                simp [PreBlocker, verdict, hs, htx, hu, hv, hbh, hbn, hh, hg, hm, hg3, hc,
                  GetBlockByHash, GetBlockByNumber, GetMinBlockTimestamp, CacheBlockHash,
                  World.call, cacheWrites_append, cacheWrites, Verdict.outcome,
                  Verdict.nextPrev, Verdict.nextCache, Verdict.writes]

/-- No verdict ends in a panic. -/
theorem outcome_ne_panicked (p : Consts) (k : Keeper) (req : FinalizeBlockRequest)
    (v : Verdict) : v.outcome p k req ≠ .panicked := by
  cases v <;> simp [Verdict.outcome]

/-- Only the verdict `halted` ends in an exit. -/
theorem outcome_exited_iff (p : Consts) (k : Keeper) (req : FinalizeBlockRequest)
    (v : Verdict) : v.outcome p k req = .exited ↔ v = .halted := by
  cases v <;> simp [Verdict.outcome]

/-- Off the sync heights the verdict is `idle`. -/
theorem verdict_of_off_cycle (p : Consts) (j : JSON) (k : Keeper) (ctx : Context)
    (req : FinalizeBlockRequest) (prev : Nat)
    (hoff : req.Height.tmod p.SYMBIOTIC_SYNC_PERIOD ≠ 0) :
    verdict p j k ctx req prev = .idle := by
  simp [verdict, hoff]

/-- On an empty transaction list the verdict is `idle`. -/
theorem verdict_of_no_txs (p : Consts) (j : JSON) (k : Keeper) (ctx : Context)
    (req : FinalizeBlockRequest) (prev : Nat) (hnil : req.Txs = []) :
    verdict p j k ctx req prev = .idle := by
  simp [verdict, hnil]

/-- At a sync height, a first transaction that does not decode gives the
verdict `undecodable`. -/
theorem verdict_of_undecodable (p : Consts) (j : JSON) (k : Keeper) (ctx : Context)
    (req : FinalizeBlockRequest) (prev : Nat) (tx0 : Tx) (rest : List Tx) (err : GoError)
    (hsync : req.Height.tmod p.SYMBIOTIC_SYNC_PERIOD = 0)
    (htxs : req.Txs = tx0 :: rest)
    (hdec : j.Unmarshal tx0 = .error err) :
    verdict p j k ctx req prev = .undecodable err := by
  simp [verdict, hsync, htxs, hdec]

/-- At a sync height, a first transaction that decodes to `hash` gives one of
the verdicts `halted`, `skip` and `accept hash t`. -/
theorem verdict_of_decoded (p : Consts) (j : JSON) (k : Keeper) (ctx : Context)
    (req : FinalizeBlockRequest) (prev : Nat) (tx0 : Tx) (rest : List Tx) (hash : String)
    (hsync : req.Height.tmod p.SYMBIOTIC_SYNC_PERIOD = 0)
    (htxs : req.Txs = tx0 :: rest)
    (hdec : j.Unmarshal tx0 = .ok hash) :
    verdict p j k ctx req prev = .halted ∨ verdict p j k ctx req prev = .skip ∨
      ∃ t, verdict p j k ctx req prev = .accept hash t := by
  simp only [verdict, hsync, htxs, hdec, ne_eq, not_true_eq_false, if_false]
  split
  · exact Or.inr (Or.inl rfl)
  · split
    · split
      · exact Or.inr (Or.inl rfl)
      · exact Or.inl rfl
    · split
      · exact Or.inl rfl
      · split
        · exact Or.inr (Or.inl rfl)
        · split
          · exact Or.inr (Or.inl rfl)
          · exact Or.inr (Or.inr ⟨_, rfl⟩)

/-- An accepting verdict is kept when `prevBlockTime` moves to any value up to
the accepted block time. -/
theorem verdict_accept_stable (p : Consts) (j : JSON) (k : Keeper) (ctx : Context)
    (req : FinalizeBlockRequest) (prev prev2 : Nat) (hash : String) (t : Nat)
    (hacc : verdict p j k ctx req prev = .accept hash t) (hle : prev2 ≤ t) :
    verdict p j k ctx req prev2 = .accept hash t := by
  by_cases hs : req.Height.tmod p.SYMBIOTIC_SYNC_PERIOD = 0
  swap
  · simp [verdict, hs] at hacc
  cases htx : req.Txs with
  | nil => simp [verdict, hs, htx] at hacc
  | cons tx0 rest =>
    cases hu : j.Unmarshal tx0 with
    | error err => simp [verdict, hs, htx, hu] at hacc
    | ok blockHash =>
      by_cases hv : blockHash = p.INVALID_BLOCKHASH
      · simp [verdict, hs, htx, hu, hv] at hacc
      cases hbh : k.blockByHash blockHash with
      | error err =>
        cases hnf : err.isNotFound <;> simp [verdict, hs, htx, hu, hv, hbh, hnf] at hacc
      | ok found =>
        cases hbn : k.blockByNumber found.Number with
        | error err => simp [verdict, hs, htx, hu, hv, hbh, hbn] at hacc
        | ok block =>
          by_cases hh : block.Hash = blockHash
          swap
          · simp [verdict, hs, htx, hu, hv, hbh, hbn, hh] at hacc
          by_cases hg : block.Time < prev ∨ ctx.HeaderTimeUnix ≤ toInt64 block.Time
              ∨ block.Time < k.minBlockTimestamp
          · simp [verdict, hs, htx, hu, hv, hbh, hbn, hh, hg] at hacc
          · simp [verdict, hs, htx, hu, hv, hbh, hbn, hh, hg] at hacc
            obtain ⟨hh2, ht⟩ := hacc
            subst ht
            subst hh2
            have hg2 : ¬ (block.Time < prev2 ∨ ctx.HeaderTimeUnix ≤ toInt64 block.Time
                ∨ block.Time < k.minBlockTimestamp) := by
              intro h
              rcases h with h | h
              · omega
              · exact hg (Or.inr h)
            simp [verdict, hs, htx, hu, hv, hbh, hbn, hh, hg2]

/-- The verdict of a second run, started where the first run ended, is the
verdict of the first run. -/
theorem verdict_after_run (p : Consts) (j : JSON) (k : Keeper) (ctx : Context)
    (req : FinalizeBlockRequest) (prev : Nat) :
    verdict p j k ctx req ((verdict p j k ctx req prev).nextPrev k req prev)
      = verdict p j k ctx req prev := by
  cases hv : verdict p j k ctx req prev with
  | accept blockHash time =>
    simp only [Verdict.nextPrev]
    split
    · exact verdict_accept_stable p j k ctx req prev time blockHash time hv le_rfl
    · exact hv
  | _ => simpa [Verdict.nextPrev] using hv

/-! ## Idle runs, repeated runs, runs on two nodes -/

/-- C11. `PreBlocker` is a no-op when idle: at a height that is not a multiple
of the sync period, and on an empty transaction list at any height, it returns
nil and leaves the state as it was, the list of keeper calls included (no
lookup, no cache write, `prevBlockTime` unchanged); and no run at all ends in
the out-of-range panic of the access to the first transaction. -/
theorem preBlocker_idle (p : Consts) (j : JSON) (k : Keeper) (ctx : Context)
    (req : FinalizeBlockRequest) (w : World)
    (hidle : req.Height.tmod p.SYMBIOTIC_SYNC_PERIOD ≠ 0 ∨ req.Txs = []) :
    PreBlocker p j k ctx req w = (.returned none, w) ∧
    ∀ (req2 : FinalizeBlockRequest) (w2 : World),
      (PreBlocker p j k ctx req2 w2).1 ≠ .panicked := by
  constructor
  · rcases hidle with h | h
    · simp [PreBlocker, h]
    · simp [PreBlocker, h]
  · intro req2 w2
    rw [(preBlocker_settles p j k ctx req2 w2).1]
    exact outcome_ne_panicked p k req2 _

/-- An idle run: height 101 against period 100. -/
theorem preBlocker_idle_witness :
    PreBlocker demoConsts quoteJSON (demoKeeper (.ok "0xab") "0xab" 50 10) ⟨60⟩
        ⟨[txAB], 101⟩ World.init = (.returned none, World.init) ∧
    ∀ (req2 : FinalizeBlockRequest) (w2 : World),
      (PreBlocker demoConsts quoteJSON (demoKeeper (.ok "0xab") "0xab" 50 10) ⟨60⟩
        req2 w2).1 ≠ .panicked :=
  preBlocker_idle demoConsts quoteJSON (demoKeeper (.ok "0xab") "0xab" 50 10) ⟨60⟩
    ⟨[txAB], 101⟩ World.init (Or.inl (by decide))

/-- C12. Idempotence of validation: a second run of `PreBlocker` on the same
request, header time and keeper answers, started in the state the first run
left, ends as the first run did, issues the same cache writes as the first
run, and leaves the store slot and `prevBlockTime` as the first run left
them. -/
theorem preBlocker_idempotent (p : Consts) (j : JSON) (k : Keeper) (ctx : Context)
    (req : FinalizeBlockRequest) (w : World) :
    (PreBlocker p j k ctx req (PreBlocker p j k ctx req w).2).1
      = (PreBlocker p j k ctx req w).1 ∧
    (∃ ws : List CachedBlockHash,
      cacheWrites (PreBlocker p j k ctx req w).2.trace = cacheWrites w.trace ++ ws ∧
      cacheWrites (PreBlocker p j k ctx req (PreBlocker p j k ctx req w).2).2.trace
        = cacheWrites (PreBlocker p j k ctx req w).2.trace ++ ws) ∧
    (PreBlocker p j k ctx req (PreBlocker p j k ctx req w).2).2.cache
      = (PreBlocker p j k ctx req w).2.cache ∧
    (PreBlocker p j k ctx req (PreBlocker p j k ctx req w).2).2.prevBlockTime
      = (PreBlocker p j k ctx req w).2.prevBlockTime := by
  obtain ⟨ho1, hp1, hc1, hw1⟩ := preBlocker_settles p j k ctx req w
  obtain ⟨ho2, hp2, hc2, hw2⟩ := preBlocker_settles p j k ctx req (PreBlocker p j k ctx req w).2
  have hv : verdict p j k ctx req (PreBlocker p j k ctx req w).2.prevBlockTime
      = verdict p j k ctx req w.prevBlockTime := by
    rw [hp1]
    exact verdict_after_run p j k ctx req w.prevBlockTime
  rw [hv] at ho2 hp2 hc2 hw2
  refine ⟨by rw [ho2, ho1], ⟨_, hw1, hw2⟩, ?_, ?_⟩
  · rw [hc2, hc1]
    cases verdict p j k ctx req w.prevBlockTime <;> simp only [Verdict.nextCache] <;>
      split <;> simp_all
  · rw [hp2, hp1]
    cases verdict p j k ctx req w.prevBlockTime with
    | accept blockHash time =>
      simp only [Verdict.nextPrev]
      split <;> simp_all
    | _ => rfl

/-- The verdict reads the keeper only through the two block lookups and the
minimum timestamp. -/
theorem verdict_congr (p : Consts) (j : JSON) (k1 k2 : Keeper) (ctx : Context)
    (req : FinalizeBlockRequest) (prev : Nat)
    (hbh : k1.blockByHash = k2.blockByHash)
    (hbn : k1.blockByNumber = k2.blockByNumber)
    (hmin : k1.minBlockTimestamp = k2.minBlockTimestamp) :
    verdict p j k1 ctx req prev = verdict p j k2 ctx req prev := by
  simp only [verdict, hbh, hbn, hmin]

/-- C13, at an input where it fails.  Two nodes run `PreBlocker` on the same
request, header time and keeper answers; the block time is 50.  The node whose
`prevBlockTime` is 0 accepts and writes the candidate hash; the node whose
`prevBlockTime` is 51 skips and writes the sentinel. -/
theorem preBlocker_watermark_splits_nodes :
    cacheWrites (PreBlocker demoConsts quoteJSON (demoKeeper (.ok "0xab") "0xab" 50 10) ⟨60⟩
        ⟨[txAB], 100⟩ (World.withPrev 0)).2.trace
      = [{ BlockHash := "0xab", Height := 100 }] ∧
    cacheWrites (PreBlocker demoConsts quoteJSON (demoKeeper (.ok "0xab") "0xab" 50 10) ⟨60⟩
        ⟨[txAB], 100⟩ (World.withPrev 51)).2.trace
      = [{ BlockHash := "invalid", Height := 100 }] ∧
    cacheWrites (PreBlocker demoConsts quoteJSON (demoKeeper (.ok "0xab") "0xab" 50 10) ⟨60⟩
        ⟨[txAB], 100⟩ (World.withPrev 0)).2.trace
      ≠ cacheWrites (PreBlocker demoConsts quoteJSON (demoKeeper (.ok "0xab") "0xab" 50 10) ⟨60⟩
        ⟨[txAB], 100⟩ (World.withPrev 51)).2.trace := by
  refine ⟨by decide, by decide, by decide⟩

/-- C13, amended.  Two nodes that hold the same `prevBlockTime` and run
`PreBlocker` on the same request and header time, with keepers that give the
same answers to both block lookups and the same minimum timestamp, issue the
same cache writes (at most one), and one exits exactly when the other does;
when their cache writes also report the same errors, both runs end the same
way and leave the same `prevBlockTime`. -/
theorem preBlocker_deterministic (p : Consts) (j : JSON) (k1 k2 : Keeper) (ctx : Context)
    (req : FinalizeBlockRequest) (w1 w2 : World)
    (hbh : k1.blockByHash = k2.blockByHash)
    (hbn : k1.blockByNumber = k2.blockByNumber)
    (hmin : k1.minBlockTimestamp = k2.minBlockTimestamp)
    (hprev : w1.prevBlockTime = w2.prevBlockTime) :
    (∃ ws : List CachedBlockHash, ws.length ≤ 1 ∧
      cacheWrites (PreBlocker p j k1 ctx req w1).2.trace = cacheWrites w1.trace ++ ws ∧
      cacheWrites (PreBlocker p j k2 ctx req w2).2.trace = cacheWrites w2.trace ++ ws) ∧
    ((PreBlocker p j k1 ctx req w1).1 = .exited ↔ (PreBlocker p j k2 ctx req w2).1 = .exited) ∧
    (k1.cacheWriteError = k2.cacheWriteError →
      (PreBlocker p j k1 ctx req w1).1 = (PreBlocker p j k2 ctx req w2).1 ∧
      (PreBlocker p j k1 ctx req w1).2.prevBlockTime
        = (PreBlocker p j k2 ctx req w2).2.prevBlockTime) := by
  obtain ⟨ho1, hp1, _, hw1⟩ := preBlocker_settles p j k1 ctx req w1
  obtain ⟨ho2, hp2, _, hw2⟩ := preBlocker_settles p j k2 ctx req w2
  have hv : verdict p j k1 ctx req w1.prevBlockTime = verdict p j k2 ctx req w2.prevBlockTime := by
    rw [hprev]
    exact verdict_congr p j k1 k2 ctx req _ hbh hbn hmin
  rw [hv] at ho1 hp1 hw1
  refine ⟨⟨_, ?_, hw1, hw2⟩, ?_, ?_⟩
  · cases verdict p j k2 ctx req w2.prevBlockTime <;> simp [Verdict.writes]
  · rw [ho1, ho2, outcome_exited_iff, outcome_exited_iff]
  · intro hc
    rw [ho1, ho2, hp1, hp2, hprev]
    cases verdict p j k2 ctx req w2.prevBlockTime <;>
      simp [Verdict.outcome, Verdict.nextPrev, hc]

/-- Two nodes with `prevBlockTime` 51 and two keepers that differ only in the
resolver answer. -/
theorem preBlocker_deterministic_witness :
    (∃ ws : List CachedBlockHash, ws.length ≤ 1 ∧
      cacheWrites (PreBlocker demoConsts quoteJSON (demoKeeper (.ok "0xab") "0xab" 50 10) ⟨60⟩
          ⟨[txAB], 100⟩ (World.withPrev 51)).2.trace
        = cacheWrites (World.withPrev 51).trace ++ ws ∧
      cacheWrites (PreBlocker demoConsts quoteJSON (demoKeeper (.ok "0xcd") "0xab" 50 10) ⟨60⟩
          ⟨[txAB], 100⟩ { prevBlockTime := 51, cache := none, trace := [.getMinBlockTimestamp] }
          ).2.trace
        = cacheWrites (World.mk 51 none [.getMinBlockTimestamp]).trace ++ ws) ∧
    ((PreBlocker demoConsts quoteJSON (demoKeeper (.ok "0xab") "0xab" 50 10) ⟨60⟩
          ⟨[txAB], 100⟩ (World.withPrev 51)).1 = .exited ↔
      (PreBlocker demoConsts quoteJSON (demoKeeper (.ok "0xcd") "0xab" 50 10) ⟨60⟩
          ⟨[txAB], 100⟩ { prevBlockTime := 51, cache := none, trace := [.getMinBlockTimestamp] }
          ).1 = .exited) ∧
    ((demoKeeper (.ok "0xab") "0xab" 50 10).cacheWriteError
        = (demoKeeper (.ok "0xcd") "0xab" 50 10).cacheWriteError →
      (PreBlocker demoConsts quoteJSON (demoKeeper (.ok "0xab") "0xab" 50 10) ⟨60⟩
          ⟨[txAB], 100⟩ (World.withPrev 51)).1
        = (PreBlocker demoConsts quoteJSON (demoKeeper (.ok "0xcd") "0xab" 50 10) ⟨60⟩
          ⟨[txAB], 100⟩ { prevBlockTime := 51, cache := none, trace := [.getMinBlockTimestamp] }
          ).1 ∧
      (PreBlocker demoConsts quoteJSON (demoKeeper (.ok "0xab") "0xab" 50 10) ⟨60⟩
          ⟨[txAB], 100⟩ (World.withPrev 51)).2.prevBlockTime
        = (PreBlocker demoConsts quoteJSON (demoKeeper (.ok "0xcd") "0xab" 50 10) ⟨60⟩
          ⟨[txAB], 100⟩ { prevBlockTime := 51, cache := none, trace := [.getMinBlockTimestamp] }
          ).2.prevBlockTime) :=
  preBlocker_deterministic demoConsts quoteJSON (demoKeeper (.ok "0xab") "0xab" 50 10)
    (demoKeeper (.ok "0xcd") "0xab" 50 10) ⟨60⟩ ⟨[txAB], 100⟩ (World.withPrev 51)
    { prevBlockTime := 51, cache := none, trace := [.getMinBlockTimestamp] } rfl rfl rfl rfl

/-! ## Errors during validation -/

/-- C14. Fatal lookup errors halt the height: at a sync height with a
non-sentinel candidate, when the lookup by hash reports an error other than
`NotFound`, or the lookup by number reports an error other than `NotFound`,
the run ends in the process exit; nothing was written to the store, the store
slot and `prevBlockTime` are as before. -/
theorem preBlocker_halts_on_lookup_error (p : Consts) (j : JSON) (k : Keeper)
    (ctx : Context) (req : FinalizeBlockRequest) (w : World) (tx0 : Tx) (rest : List Tx)
    (hash : String)
    (hsync : req.Height.tmod p.SYMBIOTIC_SYNC_PERIOD = 0)
    (htxs : req.Txs = tx0 :: rest)
    (hdec : j.Unmarshal tx0 = .ok hash)
    (hne : hash ≠ p.INVALID_BLOCKHASH)
    (hfatal : (∃ e, k.blockByHash hash = .error e ∧ e.isNotFound = false) ∨
      (∃ found e, k.blockByHash hash = .ok found ∧
        k.blockByNumber found.Number = .error e ∧ e.isNotFound = false)) :
    (PreBlocker p j k ctx req w).1 = .exited ∧
    cacheWrites (PreBlocker p j k ctx req w).2.trace = cacheWrites w.trace ∧
    (PreBlocker p j k ctx req w).2.cache = w.cache ∧
    (PreBlocker p j k ctx req w).2.prevBlockTime = w.prevBlockTime := by
  rcases hfatal with ⟨e, hbh, hnf⟩ | ⟨found, e, hbh, hbn, _⟩
  · simp [PreBlocker, hsync, htxs, hdec, hne, GetBlockByHash, hbh, hnf, World.call,
      cacheWrites_append, cacheWrites]
  · simp [PreBlocker, hsync, htxs, hdec, hne, GetBlockByHash, hbh, GetBlockByNumber, hbn,
      World.call, cacheWrites_append, cacheWrites]

/-- A halted run: the lookup by number is refused by the endpoint. -/
theorem preBlocker_halts_on_lookup_error_witness :
    (PreBlocker demoConsts quoteJSON
        (constKeeper (.ok { Number := 7, Hash := "0xab", Time := 50 }) (.error otherError) 10)
        ⟨60⟩ ⟨[txAB], 100⟩ World.init).1 = .exited ∧
    cacheWrites (PreBlocker demoConsts quoteJSON
        (constKeeper (.ok { Number := 7, Hash := "0xab", Time := 50 }) (.error otherError) 10)
        ⟨60⟩ ⟨[txAB], 100⟩ World.init).2.trace = cacheWrites World.init.trace ∧
    (PreBlocker demoConsts quoteJSON
        (constKeeper (.ok { Number := 7, Hash := "0xab", Time := 50 }) (.error otherError) 10)
        ⟨60⟩ ⟨[txAB], 100⟩ World.init).2.cache = World.init.cache ∧
    (PreBlocker demoConsts quoteJSON
        (constKeeper (.ok { Number := 7, Hash := "0xab", Time := 50 }) (.error otherError) 10)
        ⟨60⟩ ⟨[txAB], 100⟩ World.init).2.prevBlockTime = World.init.prevBlockTime :=
  preBlocker_halts_on_lookup_error demoConsts quoteJSON
    (constKeeper (.ok { Number := 7, Hash := "0xab", Time := 50 }) (.error otherError) 10)
    ⟨60⟩ ⟨[txAB], 100⟩ World.init txAB [] "0xab" (by decide) rfl rfl (by decide)
    (Or.inr ⟨{ Number := 7, Hash := "0xab", Time := 50 }, otherError, rfl, rfl, rfl⟩)

/-- C15, at the input where the code departs from it.  The candidate is found
by hash, and the lookup by the found number reports `NotFound`: the run ends
in the process exit after the two lookups, with no cache write, where the
lookup by hash on the same error writes the skip record. -/
theorem preBlocker_exits_on_number_not_found :
    notFound.isNotFound = true ∧
    PreBlocker demoConsts quoteJSON
        (constKeeper (.ok { Number := 7, Hash := "0xab", Time := 50 }) (.error notFound) 10)
        ⟨60⟩ ⟨[txAB], 100⟩ World.init
      = (.exited,
          { prevBlockTime := 0, cache := none,
            trace := [.getBlockByHash "0xab", .getBlockByNumber 7] }) ∧
    PreBlocker demoConsts quoteJSON
        (constKeeper (.error notFound) (.error notFound) 10)
        ⟨60⟩ ⟨[txAB], 100⟩ World.init
      = (.returned none,
          { prevBlockTime := 0, cache := some { BlockHash := "invalid", Height := 100 },
            trace := [.getBlockByHash "0xab",
              .cacheBlockHash { BlockHash := "invalid", Height := 100 }] }) := by
  refine ⟨rfl, by decide, by decide⟩

/-- C16, at an input where it fails.  The first transaction `[1, 2]` does not
decode; the run does not end in the process exit: it returns the decode error
to its caller, and the state is as before. -/
theorem preBlocker_undecodable_returns :
    quoteJSON.Unmarshal [1, 2] = .error { msg := "invalid character", isNotFound := false } ∧
    PreBlocker demoConsts quoteJSON (demoKeeper (.ok "0xab") "0xab" 50 10) ⟨60⟩
        ⟨[[1, 2]], 100⟩ World.init
      = (.returned (some { msg := "invalid character", isNotFound := false }), World.init) ∧
    (PreBlocker demoConsts quoteJSON (demoKeeper (.ok "0xab") "0xab" 50 10) ⟨60⟩
        ⟨[[1, 2]], 100⟩ World.init).1 ≠ .exited := by
  refine ⟨rfl, by decide, by decide⟩

/-- C16, amended.  At a sync height with a non-empty transaction list whose
first transaction does not decode, `PreBlocker` returns the decode error to its
caller; it does not exit the process; the state is as before, so no lookup was
made, nothing was written to the store and `prevBlockTime` is unchanged. -/
theorem preBlocker_returns_decode_error (p : Consts) (j : JSON) (k : Keeper)
    (ctx : Context) (req : FinalizeBlockRequest) (w : World) (tx0 : Tx) (rest : List Tx)
    (err : GoError)
    (hsync : req.Height.tmod p.SYMBIOTIC_SYNC_PERIOD = 0)
    (htxs : req.Txs = tx0 :: rest)
    (hdec : j.Unmarshal tx0 = .error err) :
    PreBlocker p j k ctx req w = (.returned (some err), w) ∧
    (PreBlocker p j k ctx req w).1 ≠ .exited := by
  have hrun : PreBlocker p j k ctx req w = (.returned (some err), w) := by
    simp [PreBlocker, hsync, htxs, hdec]
  exact ⟨hrun, by simp [hrun]⟩

/-- A run on the undecodable first transaction `[1, 2]`. -/
theorem preBlocker_returns_decode_error_witness :
    PreBlocker demoConsts quoteJSON (demoKeeper (.ok "0xab") "0xab" 50 10) ⟨60⟩
        ⟨[[1, 2]], 100⟩ World.init
      = (.returned (some { msg := "invalid character", isNotFound := false }), World.init) ∧
    (PreBlocker demoConsts quoteJSON (demoKeeper (.ok "0xab") "0xab" 50 10) ⟨60⟩
        ⟨[[1, 2]], 100⟩ World.init).1 ≠ .exited :=
  preBlocker_returns_decode_error demoConsts quoteJSON (demoKeeper (.ok "0xab") "0xab" 50 10)
    ⟨60⟩ ⟨[[1, 2]], 100⟩ World.init [1, 2] []
    { msg := "invalid character", isNotFound := false } (by decide) rfl rfl

/-- The cache writes of a run, by how the run ends: a run at a sync height on
a non-empty transaction list whose first transaction decodes, and which does
not end in the process exit, issues exactly one cache write; the height of the
written record is the request height, a multiple of the sync period, and its
hash is the sentinel or the decoded candidate.  Every other run (off the sync
heights, on an empty list, on an undecodable first transaction, or ending in
the exit) issues no cache write.  The exit is taken on every error of the
lookup by number, `NotFound` included. -/
theorem preBlocker_writes_by_ending (p : Consts) (j : JSON) (k : Keeper)
    (ctx : Context) (req : FinalizeBlockRequest) (w : World) :
    (∀ (tx0 : Tx) (rest : List Tx) (hash : String),
      req.Height.tmod p.SYMBIOTIC_SYNC_PERIOD = 0 →
      req.Txs = tx0 :: rest →
      j.Unmarshal tx0 = .ok hash →
      (PreBlocker p j k ctx req w).1 ≠ .exited →
      ∃ c : CachedBlockHash,
        cacheWrites (PreBlocker p j k ctx req w).2.trace = cacheWrites w.trace ++ [c] ∧
        c.Height = req.Height ∧
        c.Height.tmod p.SYMBIOTIC_SYNC_PERIOD = 0 ∧
        (c.BlockHash = p.INVALID_BLOCKHASH ∨ c.BlockHash = hash)) ∧
    ((req.Height.tmod p.SYMBIOTIC_SYNC_PERIOD ≠ 0 ∨ req.Txs = [] ∨
        (∃ tx0 rest err, req.Txs = tx0 :: rest ∧ j.Unmarshal tx0 = .error err) ∨
        (PreBlocker p j k ctx req w).1 = .exited) →
      cacheWrites (PreBlocker p j k ctx req w).2.trace = cacheWrites w.trace) := by
  obtain ⟨ho, _, _, hw⟩ := preBlocker_settles p j k ctx req w
  constructor
  · intro tx0 rest hash hsync htxs hdec hlive
    rw [ho, Ne, outcome_exited_iff] at hlive
    rcases verdict_of_decoded p j k ctx req w.prevBlockTime tx0 rest hash hsync htxs hdec
      with hv | hv | ⟨t, hv⟩
    · exact absurd hv hlive
    · exact ⟨skipRecord p req, by rw [hw, hv]; rfl, rfl, hsync, Or.inl rfl⟩
    · exact ⟨{ BlockHash := hash, Height := req.Height }, by rw [hw, hv]; rfl, rfl, hsync,
        Or.inr rfl⟩
  · intro h
    have hv : (verdict p j k ctx req w.prevBlockTime).writes p req = [] := by
      rcases h with h | h | ⟨tx0, rest, err, htxs, hdec⟩ | h
      · rw [verdict_of_off_cycle p j k ctx req _ h]; rfl
      · rw [verdict_of_no_txs p j k ctx req _ h]; rfl
      · by_cases hsync : req.Height.tmod p.SYMBIOTIC_SYNC_PERIOD = 0
        · rw [verdict_of_undecodable p j k ctx req _ tx0 rest err hsync htxs hdec]; rfl
        · rw [verdict_of_off_cycle p j k ctx req _ hsync]; rfl
      · rw [ho, outcome_exited_iff] at h
        rw [h]; rfl
    rw [hw, hv, List.append_nil]

/-- A sync-height run that skips, and the same request with an empty list. -/
theorem preBlocker_writes_by_ending_example :
    (∃ c : CachedBlockHash,
      cacheWrites (PreBlocker demoConsts quoteJSON (demoKeeper (.ok "0xab") "0xcd" 50 10) ⟨60⟩
          ⟨[txAB], 100⟩ World.init).2.trace = cacheWrites World.init.trace ++ [c] ∧
      c.Height = (FinalizeBlockRequest.mk [txAB] 100).Height ∧
      c.Height.tmod demoConsts.SYMBIOTIC_SYNC_PERIOD = 0 ∧
      (c.BlockHash = demoConsts.INVALID_BLOCKHASH ∨ c.BlockHash = "0xab")) ∧
    cacheWrites (PreBlocker demoConsts quoteJSON (demoKeeper (.ok "0xab") "0xcd" 50 10) ⟨60⟩
        ⟨[], 100⟩ World.init).2.trace = cacheWrites World.init.trace :=
  ⟨(preBlocker_writes_by_ending demoConsts quoteJSON (demoKeeper (.ok "0xab") "0xcd" 50 10)
      ⟨60⟩ ⟨[txAB], 100⟩ World.init).1 txAB [] "0xab" (by decide) rfl rfl (by decide),
   (preBlocker_writes_by_ending demoConsts quoteJSON (demoKeeper (.ok "0xab") "0xcd" 50 10)
      ⟨60⟩ ⟨[], 100⟩ World.init).2 (Or.inr (Or.inl rfl))⟩

/-! ## A two-cycle scenario -/

/-- C18. End-to-end scenario with period 100, `prevBlockTime` 0 and a minimum
timestamp below 50.  At height 100 the proposer resolves a hash whose block
has time 50, the header time is 60: `PrepareProposal` followed by `PreBlocker`
accepts, the store holds that hash at height 100 and `prevBlockTime` is 50.
At height 200 the resolver fails: the sentinel is injected, `PreBlocker`
skips, the store holds the sentinel at height 200 and `prevBlockTime` is
still 50. -/
theorem two_cycle_scenario (p : Consts) (j : JSON) (k1 k2 : Keeper) (ctx2 : Context)
    (L1 L2 : List Tx) (wp1 wp2 w : World) (hash : String) (found block : Block) (e : GoError)
    (hperiod : p.SYMBIOTIC_SYNC_PERIOD = 100)
    (hm : j.MarshalsStrings)
    (hrt1 : j.RoundTrips hash)
    (hrt2 : j.RoundTrips p.INVALID_BLOCKHASH)
    (hne : hash ≠ p.INVALID_BLOCKHASH)
    (hprev : w.prevBlockTime = 0)
    (hres1 : k1.finalizedBlockHash = .ok hash)
    (hbh : k1.blockByHash hash = .ok found)
    (hbn : k1.blockByNumber found.Number = .ok block)
    (heq : block.Hash = hash)
    (ht : block.Time = 50)
    (hmin : k1.minBlockTimestamp < 50)
    (hw1 : k1.cacheWriteError { BlockHash := hash, Height := 100 } = none)
    (hres2 : k2.finalizedBlockHash = .error e)
    (hw2 : k2.cacheWriteError { BlockHash := p.INVALID_BLOCKHASH, Height := 200 } = none) :
    ∃ resp1 resp2 : PrepareProposalResponse,
      (PrepareProposal p j k1 { Txs := L1, Height := 100 } wp1).1 = .ok resp1 ∧
      (PreBlocker p j k1 ⟨60⟩ { Txs := resp1.Txs, Height := 100 } w).1 = .returned none ∧
      (PreBlocker p j k1 ⟨60⟩ { Txs := resp1.Txs, Height := 100 } w).2.cache
        = some { BlockHash := hash, Height := 100 } ∧
      (PreBlocker p j k1 ⟨60⟩ { Txs := resp1.Txs, Height := 100 } w).2.prevBlockTime = 50 ∧
      (PrepareProposal p j k2 { Txs := L2, Height := 200 } wp2).1 = .ok resp2 ∧
      (PreBlocker p j k2 ctx2 { Txs := resp2.Txs, Height := 200 }
        (PreBlocker p j k1 ⟨60⟩ { Txs := resp1.Txs, Height := 100 } w).2).1 = .returned none ∧
      (PreBlocker p j k2 ctx2 { Txs := resp2.Txs, Height := 200 }
        (PreBlocker p j k1 ⟨60⟩ { Txs := resp1.Txs, Height := 100 } w).2).2.cache
        = some { BlockHash := p.INVALID_BLOCKHASH, Height := 200 } ∧
      (PreBlocker p j k2 ctx2 { Txs := resp2.Txs, Height := 200 }
        (PreBlocker p j k1 ⟨60⟩ { Txs := resp1.Txs, Height := 100 } w).2).2.prevBlockTime = 50 := by
  have hs1 : (100 : Int).tmod p.SYMBIOTIC_SYNC_PERIOD = 0 := by rw [hperiod]; decide
  have hs2 : (200 : Int).tmod p.SYMBIOTIC_SYNC_PERIOD = 0 := by rw [hperiod]; decide
  obtain ⟨bz1, henc1⟩ := hm hash
  obtain ⟨bz2, henc2⟩ := hm p.INVALID_BLOCKHASH
  have hdec1 := hrt1 bz1 henc1
  have hdec2 := hrt2 bz2 henc2
  have hc1 : candidate p k1 = hash := by simp [candidate, hres1]
  have hc2 : candidate p k2 = p.INVALID_BLOCKHASH := by simp [candidate, hres2]
  have hpp1 := prepareProposal_of_sync p j k1 { Txs := L1, Height := 100 } wp1 bz1 hs1
    (by rw [hc1]; exact henc1)
  have hpp2 := prepareProposal_of_sync p j k2 { Txs := L2, Height := 200 } wp2 bz2 hs2
    (by rw [hc2]; exact henc2)
  have hcast : toInt64 50 < (60 : Int) := by decide
  have hprev2 : ¬ (50 < w.prevBlockTime) := by omega
  have hmin2 : ¬ (50 < k1.minBlockTimestamp) := by omega
  have hrun1 : PreBlocker p j k1 ⟨60⟩ { Txs := bz1 :: L1, Height := 100 } w
      = (.returned none,
          { prevBlockTime := 50, cache := some { BlockHash := hash, Height := 100 },
            trace := w.trace ++ [.getBlockByHash hash, .getBlockByNumber found.Number,
              .getMinBlockTimestamp, .cacheBlockHash { BlockHash := hash, Height := 100 }] }) := by
    simp [PreBlocker, hs1, hdec1, hne, GetBlockByHash, hbh, GetBlockByNumber, hbn, heq, ht,
      World.call, GetMinBlockTimestamp, CacheBlockHash, hw1, hprev2, not_le.mpr hcast, hmin2]
  refine ⟨{ Txs := bz1 :: L1 }, { Txs := bz2 :: L2 }, by rw [hpp1], ?_, ?_, ?_, by rw [hpp2],
    ?_, ?_, ?_⟩
  · rw [hrun1]
  · rw [hrun1]
  · rw [hrun1]
  all_goals
    rw [hrun1]
    simp [PreBlocker, hs2, hdec2, CacheBlockHash, hw2, World.call]

/-- The scenario on the demonstration chain, with `"0xab"` for the hash. -/
theorem two_cycle_scenario_witness :
    ∃ resp1 resp2 : PrepareProposalResponse,
      (PrepareProposal demoConsts quoteJSON (demoKeeper (.ok "0xab") "0xab" 50 10)
        { Txs := [[1, 2]], Height := 100 } World.init).1 = .ok resp1 ∧
      (PreBlocker demoConsts quoteJSON (demoKeeper (.ok "0xab") "0xab" 50 10) ⟨60⟩
        { Txs := resp1.Txs, Height := 100 } World.init).1 = .returned none ∧
      (PreBlocker demoConsts quoteJSON (demoKeeper (.ok "0xab") "0xab" 50 10) ⟨60⟩
        { Txs := resp1.Txs, Height := 100 } World.init).2.cache
        = some { BlockHash := "0xab", Height := 100 } ∧
      (PreBlocker demoConsts quoteJSON (demoKeeper (.ok "0xab") "0xab" 50 10) ⟨60⟩
        { Txs := resp1.Txs, Height := 100 } World.init).2.prevBlockTime = 50 ∧
      (PrepareProposal demoConsts quoteJSON (demoKeeper (.error otherError) "0xab" 50 10)
        { Txs := [[3]], Height := 200 } World.init).1 = .ok resp2 ∧
      (PreBlocker demoConsts quoteJSON (demoKeeper (.error otherError) "0xab" 50 10) ⟨70⟩
        { Txs := resp2.Txs, Height := 200 }
        (PreBlocker demoConsts quoteJSON (demoKeeper (.ok "0xab") "0xab" 50 10) ⟨60⟩
          { Txs := resp1.Txs, Height := 100 } World.init).2).1 = .returned none ∧
      (PreBlocker demoConsts quoteJSON (demoKeeper (.error otherError) "0xab" 50 10) ⟨70⟩
        { Txs := resp2.Txs, Height := 200 }
        (PreBlocker demoConsts quoteJSON (demoKeeper (.ok "0xab") "0xab" 50 10) ⟨60⟩
          { Txs := resp1.Txs, Height := 100 } World.init).2).2.cache
        = some { BlockHash := demoConsts.INVALID_BLOCKHASH, Height := 200 } ∧
      (PreBlocker demoConsts quoteJSON (demoKeeper (.error otherError) "0xab" 50 10) ⟨70⟩
        { Txs := resp2.Txs, Height := 200 }
        (PreBlocker demoConsts quoteJSON (demoKeeper (.ok "0xab") "0xab" 50 10) ⟨60⟩
          { Txs := resp1.Txs, Height := 100 } World.init).2).2.prevBlockTime = 50 :=
  two_cycle_scenario demoConsts quoteJSON (demoKeeper (.ok "0xab") "0xab" 50 10)
    (demoKeeper (.error otherError) "0xab" 50 10) ⟨70⟩ [[1, 2]] [[3]] World.init World.init
    World.init "0xab" { Number := 7, Hash := "0xab", Time := 50 }
    { Number := 7, Hash := "0xab", Time := 50 } otherError
    rfl quoteJSON_marshalsStrings quoteJSON_roundTrips_ab quoteJSON_roundTrips_invalid
    (by decide) rfl rfl rfl rfl rfl rfl (by decide) rfl rfl rfl

/-! ## The synchronizer -/

/-- The validator found by a lookup carries the address looked up. -/
theorem consAddr_of_lookup (failure : Option GoError) (store : List types.Validator)
    (a : ConsAddress) (val : types.Validator)
    (h : GetValidatorByConsAddr failure store a = .ok val) : val.ConsAddr = a := by
  unfold GetValidatorByConsAddr at h
  cases failure with
  | some err => simp at h
  | none =>
    cases hf : store.find? (fun v => v.ConsAddr = a) with
    | none => simp [hf] at h
    | some v =>
      simp [hf] at h
      subst h
      simpa using List.find?_some hf

/-- A lookup that reports `NoValidatorFound` met no validator of that address. -/
theorem not_mem_of_lookup (failure : Option GoError) (store : List types.Validator)
    (a : ConsAddress)
    (h : GetValidatorByConsAddr failure store a = .error .noValidatorFound) :
    ∀ v ∈ store, v.ConsAddr ≠ a := by
  unfold GetValidatorByConsAddr at h
  cases failure with
  | some err => simp at h
  | none =>
    cases hf : store.find? (fun v => v.ConsAddr = a) with
    | some v => simp [hf] at h
    | none =>
      intro v hv
      have := List.find?_eq_none.mp hf v hv
      simpa using this

/-- The write of tokens keeps the consensus address at every position. -/
theorem setValidatorTokens_consAddr (store : List types.Validator) (val : types.Validator)
    (tokens : Int) :
    (SetValidatorTokens store val tokens).map (fun v => v.ConsAddr)
      = store.map (fun v => v.ConsAddr) := by
  unfold SetValidatorTokens
  rw [List.map_map]
  apply List.map_congr_left
  intro v _
  by_cases h : v.ConsAddr = val.ConsAddr <;> simp [h]

/-- The write of tokens leaves a validator of another consensus address as it
was, at its position. -/
theorem setValidatorTokens_other (store : List types.Validator) (val : types.Validator)
    (tokens : Int) (n : Nat) (v : types.Validator)
    (hv : store[n]? = some v) (hne : v.ConsAddr ≠ val.ConsAddr) :
    (SetValidatorTokens store val tokens)[n]? = some v := by
  unfold SetValidatorTokens
  rw [List.getElem?_map, hv]
  simp [hne]

/-- A member of the store after a write of tokens is the written validator,
with the new tokens, or a member of the store before whose consensus address
is another one. -/
theorem mem_setValidatorTokens (store : List types.Validator) (val : types.Validator)
    (tokens : Int) (v : types.Validator) (hv : v ∈ SetValidatorTokens store val tokens) :
    (v.ConsAddr = val.ConsAddr ∧ v.Tokens = tokens) ∨ (v ∈ store ∧ v.ConsAddr ≠ val.ConsAddr) := by
  unfold SetValidatorTokens at hv
  obtain ⟨u, hu, rfl⟩ := List.mem_map.mp hv
  by_cases h : u.ConsAddr = val.ConsAddr
  · left
    simp [h]
  · right
    simp [h, hu]

/-- The loop keeps the consensus address at every position of the store, and
leaves every validator whose consensus address is not in the table as it was,
at its position; this holds whether the loop ends with an error or not. -/
theorem updateValidators_frame (failure : Nat → Option GoError) (table : List keeper.Validator) :
    ∀ (i : Nat) (store : List types.Validator),
      (updateValidators failure i table store).2.map (fun v => v.ConsAddr)
        = store.map (fun v => v.ConsAddr) ∧
      ∀ (n : Nat) (v : types.Validator), store[n]? = some v →
        v.ConsAddr ∉ table.map (fun x => x.ConsAddr) →
        (updateValidators failure i table store).2[n]? = some v := by
  induction table with
  | nil =>
    intro i store
    exact ⟨rfl, fun n v hv _ => hv⟩
  | cons x rest ih =>
    intro i store
    unfold updateValidators
    cases hl : GetValidatorByConsAddr (failure i) store x.ConsAddr with
    | error e =>
      cases e with
      | noValidatorFound =>
        refine ⟨(ih (i + 1) store).1, fun n v hv hnot => (ih (i + 1) store).2 n v hv ?_⟩
        exact fun hmem => hnot (List.mem_cons_of_mem _ hmem)
      | other err => exact ⟨rfl, fun n v hv _ => hv⟩
    | ok val =>
      have hval := consAddr_of_lookup _ _ _ _ hl
      obtain ⟨ih1, ih2⟩ :=
        ih (i + 1) (SetValidatorTokens store val (NewIntFromBigInt x.Stake))
      refine ⟨by simpa [setValidatorTokens_consAddr] using ih1, fun n v hv hnot => ?_⟩
      have hne : v.ConsAddr ≠ val.ConsAddr := by
        rw [hval]
        exact fun h => hnot (by simp [h])
      exact ih2 n v (setValidatorTokens_other store val _ n v hv hne)
        (fun hmem => hnot (List.mem_cons_of_mem _ hmem))

/-- After a loop that ends without error, a validator whose consensus address
is in the table holds the stake of the last tuple of that address, and a
validator whose consensus address is not in the table was in the store
before. -/
theorem updateValidators_overwrites (failure : Nat → Option GoError)
    (table : List keeper.Validator) :
    ∀ (i : Nat) (store final : List types.Validator),
      updateValidators failure i table store = (none, final) →
      ∀ v ∈ final,
        (∀ s, lastStake table v.ConsAddr = some s → v.Tokens = (s : Int)) ∧
        (lastStake table v.ConsAddr = none → v ∈ store) := by
  induction table with
  | nil =>
    intro i store final h v hv
    simp [updateValidators] at h
    subst h
    exact ⟨fun s hs => by simp [lastStake] at hs, fun _ => hv⟩
  | cons x rest ih =>
    intro i store final h v hv
    unfold updateValidators at h
    cases hl : GetValidatorByConsAddr (failure i) store x.ConsAddr with
    | error e =>
      cases e with
      | other err => simp [hl] at h
      | noValidatorFound =>
        simp only [hl] at h
        obtain ⟨ih1, ih2⟩ := ih (i + 1) store final h v hv
        have habsent := not_mem_of_lookup _ _ _ hl
        cases hlast : lastStake rest v.ConsAddr with
        | some s0 =>
          refine ⟨fun s hs => ?_, fun hn => ?_⟩
          · simp [lastStake, hlast] at hs
            subst hs
            exact ih1 s0 hlast
          · simp [lastStake, hlast] at hn
        | none =>
          have hmem := ih2 hlast
          have hne : x.ConsAddr ≠ v.ConsAddr := fun h => habsent v hmem h.symm
          exact ⟨fun s hs => by simp [lastStake, hlast, hne] at hs, fun _ => hmem⟩
    | ok val =>
      simp only [hl] at h
      have hval := consAddr_of_lookup _ _ _ _ hl
      obtain ⟨ih1, ih2⟩ :=
        ih (i + 1) (SetValidatorTokens store val (NewIntFromBigInt x.Stake)) final h v hv
      cases hlast : lastStake rest v.ConsAddr with
      | some s0 =>
        refine ⟨fun s hs => ?_, fun hn => ?_⟩
        · simp [lastStake, hlast] at hs
          subst hs
          exact ih1 s0 hlast
        · simp [lastStake, hlast] at hn
      | none =>
        rcases mem_setValidatorTokens _ _ _ _ (ih2 hlast) with ⟨hc, ht⟩ | ⟨hmem, hc⟩
        · have hxa : x.ConsAddr = v.ConsAddr := by rw [hc, hval]
          refine ⟨fun s hs => ?_, fun hn => ?_⟩
          · simp [lastStake, hlast, hxa] at hs
            subst hs
            simpa [NewIntFromBigInt] using ht
          · simp [lastStake, hlast, hxa] at hn
        · have hne : x.ConsAddr ≠ v.ConsAddr := by
            rw [← hval]
            exact fun h => hc h.symm
          exact ⟨fun s hs => by simp [lastStake, hlast, hne] at hs, fun _ => hmem⟩

/-- A consensus address that occurs in a table has a last stake there. -/
theorem lastStake_of_mem (table : List keeper.Validator) (a : ConsAddress)
    (h : a ∈ table.map (fun x => x.ConsAddr)) : ∃ s, lastStake table a = some s := by
  induction table with
  | nil => simp at h
  | cons x rest ih =>
    cases hlast : lastStake rest a with
    | some s0 => exact ⟨s0, by simp [lastStake, hlast]⟩
    | none =>
      have hx : x.ConsAddr = a := by
        rw [List.map_cons, List.mem_cons] at h
        rcases h with h1 | h1
        · exact h1.symm
        · obtain ⟨s, hs⟩ := ih h1
          rw [hlast] at hs
          exact absurd hs (by simp)
      exact ⟨x.Stake, by simp [lastStake, hlast, hx]⟩

/-- C19. Synchronizer overwrite semantics: when `SymbioticUpdateValidatorsPower`
succeeds on an external table, the string it returns is the resolved block
hash, the local validators are those of before by consensus address, and every
local validator whose consensus address occurs in the table ends with `Tokens`
equal to the stake of the last tuple of that address, whatever its `Tokens`
were before. -/
theorem symbioticUpdate_overwrites (c : SymbioticConfig) (r : Remote)
    (failure : Nat → Option GoError) (store : List types.Validator)
    (blockHash : String) (table : List keeper.Validator)
    (hhash : getFinalizedBlockHash c r = .ok blockHash)
    (hset : GetSymbioticValidatorSet c r blockHash = .ok table)
    (hok : (SymbioticUpdateValidatorsPower c r failure store).1.2 = none) :
    (SymbioticUpdateValidatorsPower c r failure store).1.1 = blockHash ∧
    (SymbioticUpdateValidatorsPower c r failure store).2.map (fun v => v.ConsAddr)
      = store.map (fun v => v.ConsAddr) ∧
    ∀ v ∈ (SymbioticUpdateValidatorsPower c r failure store).2,
      v.ConsAddr ∈ table.map (fun x => x.ConsAddr) →
      ∃ s, lastStake table v.ConsAddr = some s ∧ v.Tokens = (s : Int) := by
  have hframe := (updateValidators_frame failure table 0 store).1
  cases hloop : updateValidators failure 0 table store with
  | mk err final =>
    rw [hloop] at hframe
    cases err with
    | some e => simp [SymbioticUpdateValidatorsPower, hhash, hset, hloop] at hok
    | none =>
      have hrun : SymbioticUpdateValidatorsPower c r failure store
          = ((blockHash, none), final) := by
        simp [SymbioticUpdateValidatorsPower, hhash, hset, hloop]
      rw [hrun]
      refine ⟨rfl, hframe, fun v hv hmem => ?_⟩
      obtain ⟨s, hs⟩ := lastStake_of_mem table v.ConsAddr hmem
      exact ⟨s, hs, (updateValidators_overwrites failure table 0 store final hloop v hv).1 s hs⟩

/-- The table `[(500, A), (10, B)]` against a local validator at `A` with
tokens 3 and no validator at `B`. -/
theorem symbioticUpdate_overwrites_witness :
    (SymbioticUpdateValidatorsPower demoConfig
        (demoRemote [{ Stake := 500, ConsAddr := [1] }, { Stake := 10, ConsAddr := [2] }])
        (fun _ => none) [demoValidator "valA" [1] 3]).1.1 = "0xab" ∧
    (SymbioticUpdateValidatorsPower demoConfig
        (demoRemote [{ Stake := 500, ConsAddr := [1] }, { Stake := 10, ConsAddr := [2] }])
        (fun _ => none) [demoValidator "valA" [1] 3]).2.map (fun v => v.ConsAddr)
      = [demoValidator "valA" [1] 3].map (fun v => v.ConsAddr) ∧
    ∀ v ∈ (SymbioticUpdateValidatorsPower demoConfig
        (demoRemote [{ Stake := 500, ConsAddr := [1] }, { Stake := 10, ConsAddr := [2] }])
        (fun _ => none) [demoValidator "valA" [1] 3]).2,
      v.ConsAddr ∈ ([{ Stake := 500, ConsAddr := [1] }, { Stake := 10, ConsAddr := [2] }] :
        List keeper.Validator).map (fun x => x.ConsAddr) →
      ∃ s, lastStake [{ Stake := 500, ConsAddr := [1] }, { Stake := 10, ConsAddr := [2] }]
        v.ConsAddr = some s ∧ v.Tokens = (s : Int) :=
  symbioticUpdate_overwrites demoConfig
    (demoRemote [{ Stake := 500, ConsAddr := [1] }, { Stake := 10, ConsAddr := [2] }])
    (fun _ => none) [demoValidator "valA" [1] 3] "0xab"
    [{ Stake := 500, ConsAddr := [1] }, { Stake := 10, ConsAddr := [2] }] rfl rfl rfl

/-- The example of C19 and C20, run: with the table `[(500, A), (10, B)]`, a
local validator at `A` with tokens 3 and one at `C` with tokens 7, the
synchronizer returns the hash and no error, the validator at `A` holds 500,
the validator at `C` is as before, and there is no validator at `B`. -/
theorem symbioticUpdate_example :
    SymbioticUpdateValidatorsPower demoConfig
        (demoRemote [{ Stake := 500, ConsAddr := [1] }, { Stake := 10, ConsAddr := [2] }])
        (fun _ => none) [demoValidator "valA" [1] 3, demoValidator "valC" [3] 7]
      = (("0xab", none), [demoValidator "valA" [1] 500, demoValidator "valC" [3] 7]) := by
  decide

/-- C20. Synchronizer frame: in every run of `SymbioticUpdateValidatorsPower`
the local validators after the run are those of before, position by position,
by consensus address (none is created, none is removed); every local
validator whose consensus address does not occur in the external table is
after the run what it was before, in all its fields; and in the loop a tuple
whose consensus address matches no local validator is passed over, with no
error and no change of the store. -/
theorem symbioticUpdate_frame (c : SymbioticConfig) (r : Remote)
    (failure : Nat → Option GoError) (store : List types.Validator) :
    (SymbioticUpdateValidatorsPower c r failure store).2.map (fun v => v.ConsAddr)
      = store.map (fun v => v.ConsAddr) ∧
    (∀ (blockHash : String) (table : List keeper.Validator),
      getFinalizedBlockHash c r = .ok blockHash →
      GetSymbioticValidatorSet c r blockHash = .ok table →
      ∀ (n : Nat) (v : types.Validator), store[n]? = some v →
        v.ConsAddr ∉ table.map (fun x => x.ConsAddr) →
        (SymbioticUpdateValidatorsPower c r failure store).2[n]? = some v) ∧
    (∀ (i : Nat) (x : keeper.Validator) (rest : List keeper.Validator)
      (st : List types.Validator),
      failure i = none →
      (∀ v ∈ st, v.ConsAddr ≠ x.ConsAddr) →
      updateValidators failure i (x :: rest) st = updateValidators failure (i + 1) rest st) := by
  refine ⟨?_, ?_, ?_⟩
  · cases hhash : getFinalizedBlockHash c r with
    | error err => simp [SymbioticUpdateValidatorsPower, hhash]
    | ok blockHash =>
      cases hset : GetSymbioticValidatorSet c r blockHash with
      | error err => simp [SymbioticUpdateValidatorsPower, hhash, hset]
      | ok table =>
        have hframe := (updateValidators_frame failure table 0 store).1
        cases hloop : updateValidators failure 0 table store with
        | mk err final =>
          rw [hloop] at hframe
          cases err <;> simpa [SymbioticUpdateValidatorsPower, hhash, hset, hloop] using hframe
  · intro blockHash table hhash hset n v hv hnot
    have hframe := (updateValidators_frame failure table 0 store).2 n v hv hnot
    cases hloop : updateValidators failure 0 table store with
    | mk err final =>
      rw [hloop] at hframe
      cases err <;> simpa [SymbioticUpdateValidatorsPower, hhash, hset, hloop] using hframe
  · intro i x rest st hfail habsent
    have hfind : st.find? (fun v => v.ConsAddr = x.ConsAddr) = none := by
      rw [List.find?_eq_none]
      intro v hv
      simpa using habsent v hv
    rw [updateValidators]
    simp [GetValidatorByConsAddr, hfail, hfind]

/-- The run of the example: the validator at `C` is not in the table, and the
tuple at `B` matches no local validator. -/
theorem symbioticUpdate_frame_witness :
    (SymbioticUpdateValidatorsPower demoConfig
        (demoRemote [{ Stake := 500, ConsAddr := [1] }, { Stake := 10, ConsAddr := [2] }])
        (fun _ => none) [demoValidator "valA" [1] 3, demoValidator "valC" [3] 7]).2[1]?
      = some (demoValidator "valC" [3] 7) ∧
    updateValidators (fun _ => none) 1 [{ Stake := 10, ConsAddr := [2] }]
        [demoValidator "valA" [1] 500, demoValidator "valC" [3] 7]
      = updateValidators (fun _ => none) 2 []
        [demoValidator "valA" [1] 500, demoValidator "valC" [3] 7] :=
  ⟨(symbioticUpdate_frame demoConfig
      (demoRemote [{ Stake := 500, ConsAddr := [1] }, { Stake := 10, ConsAddr := [2] }])
      (fun _ => none) [demoValidator "valA" [1] 3, demoValidator "valC" [3] 7]).2.1 "0xab"
      [{ Stake := 500, ConsAddr := [1] }, { Stake := 10, ConsAddr := [2] }] rfl rfl 1
      (demoValidator "valC" [3] 7) rfl (by decide),
   (symbioticUpdate_frame demoConfig
      (demoRemote [{ Stake := 500, ConsAddr := [1] }, { Stake := 10, ConsAddr := [2] }])
      (fun _ => none) [demoValidator "valA" [1] 3, demoValidator "valC" [3] 7]).2.2 1
      { Stake := 10, ConsAddr := [2] } []
      [demoValidator "valA" [1] 500, demoValidator "valC" [3] 7] rfl (by decide)⟩

/-! ## Failures of the synchronizer -/

/-- A failure to resolve the current epoch is a failure to resolve the
validator set, with the same error. -/
theorem getSymbioticValidatorSet_of_epoch_error (c : SymbioticConfig) (r : Remote)
    (blockHash : String) (err : GoError)
    (h : getCurrentEpoch c r blockHash = .error err) :
    GetSymbioticValidatorSet c r blockHash = .error err := by
  unfold GetSymbioticValidatorSet
  cases hd : r.dial c.ethAPIURL with
  | some e =>
    simp [getCurrentEpoch, hd] at h
    simp [h]
  | none => simp [h]

/-- The loop over a table in two parts: the second part runs, on the store the
first part left, when the first part ended without error. -/
theorem updateValidators_append (failure : Nat → Option GoError)
    (pre post : List keeper.Validator) :
    ∀ (i : Nat) (store : List types.Validator),
      updateValidators failure i (pre ++ post) store
        = match updateValidators failure i pre store with
          | (some err, mid) => (some err, mid)
          | (none, mid) => updateValidators failure (i + pre.length) post mid := by
  induction pre with
  | nil =>
    intro i store
    simp [updateValidators]
  | cons x rest ih =>
    intro i store
    simp only [List.cons_append, List.length_cons]
    rw [updateValidators, updateValidators]
    cases hl : GetValidatorByConsAddr (failure i) store x.ConsAddr with
    | error e =>
      cases e with
      | noValidatorFound =>
        simp only []
        rw [ih (i + 1) store, Nat.add_assoc, Nat.add_comm 1]
      | other err => rfl
    | ok val =>
      simp only []
      rw [ih (i + 1) _, Nat.add_assoc, Nat.add_comm 1]

/-- A loop whose lookups meet no store error ends without error. -/
theorem updateValidators_ok (failure : Nat → Option GoError) (table : List keeper.Validator) :
    ∀ (i : Nat) (store : List types.Validator),
      (∀ n, i ≤ n → n < i + table.length → failure n = none) →
      (updateValidators failure i table store).1 = none := by
  induction table with
  | nil =>
    intro i store _
    rfl
  | cons x rest ih =>
    intro i store hnone
    have hi : failure i = none := hnone i le_rfl (by simp)
    have hrest : ∀ st, (updateValidators failure (i + 1) rest st).1 = none := fun st =>
      ih (i + 1) st (fun n h1 h2 => hnone n (by omega) (by simp only [List.length_cons]; omega))
    rw [updateValidators]
    cases hf : store.find? (fun v => v.ConsAddr = x.ConsAddr) with
    | none => simpa [GetValidatorByConsAddr, hi, hf] using hrest store
    | some val => simpa [GetValidatorByConsAddr, hi, hf] using hrest _

/-- C21. Synchronizer abort on resolution failure: when resolving the
finalized hash fails, or resolving the current epoch fails, or resolving the
validator set fails, `SymbioticUpdateValidatorsPower` returns the empty string
with that error, and the store is as before: no local validator was changed. -/
theorem symbioticUpdate_aborts_on_resolution_failure (c : SymbioticConfig) (r : Remote)
    (failure : Nat → Option GoError) (store : List types.Validator) (err : GoError)
    (hfail : getFinalizedBlockHash c r = .error err ∨
      (∃ blockHash, getFinalizedBlockHash c r = .ok blockHash ∧
        getCurrentEpoch c r blockHash = .error err) ∨
      (∃ blockHash, getFinalizedBlockHash c r = .ok blockHash ∧
        GetSymbioticValidatorSet c r blockHash = .error err)) :
    SymbioticUpdateValidatorsPower c r failure store = (("", some err), store) := by
  rcases hfail with h | ⟨blockHash, hh, he⟩ | ⟨blockHash, hh, hs⟩
  · simp [SymbioticUpdateValidatorsPower, h]
  · have hs := getSymbioticValidatorSet_of_epoch_error c r blockHash err he
    simp [SymbioticUpdateValidatorsPower, hh, hs]
  · simp [SymbioticUpdateValidatorsPower, hh, hs]

/-- A run in which the call for the current epoch is refused. -/
theorem symbioticUpdate_aborts_on_resolution_failure_witness :
    SymbioticUpdateValidatorsPower demoConfig refusingRemote (fun _ => none)
        [demoValidator "valA" [1] 3]
      = (("", some otherError), [demoValidator "valA" [1] 3]) :=
  symbioticUpdate_aborts_on_resolution_failure demoConfig refusingRemote (fun _ => none)
    [demoValidator "valA" [1] 3] otherError (Or.inr (Or.inl ⟨"0xab", rfl, rfl⟩))

/-- C22. The synchronizer is not transactional: when the lookup made for the
tuple at position `k` fails with an error other than `NoValidatorFound`,
`SymbioticUpdateValidatorsPower` returns the empty string with that error; the
store it leaves is the store left by the loop over the tuples before `k`,
which ended without error, so the overwrites made for those tuples are in
place (a validator whose consensus address is among them holds the stake of
the last of them) and no tuple from `k` on was applied. -/
theorem symbioticUpdate_not_transactional (c : SymbioticConfig) (r : Remote)
    (failure : Nat → Option GoError) (store : List types.Validator) (blockHash : String)
    (pre post : List keeper.Validator) (x : keeper.Validator) (err : GoError)
    (hhash : getFinalizedBlockHash c r = .ok blockHash)
    (hset : GetSymbioticValidatorSet c r blockHash = .ok (pre ++ x :: post))
    (hbefore : ∀ n, n < pre.length → failure n = none)
    (hk : failure pre.length = some err) :
    (SymbioticUpdateValidatorsPower c r failure store).1 = ("", some err) ∧
    (updateValidators failure 0 pre store).1 = none ∧
    (SymbioticUpdateValidatorsPower c r failure store).2
      = (updateValidators failure 0 pre store).2 ∧
    ∀ v ∈ (SymbioticUpdateValidatorsPower c r failure store).2,
      ∀ s, lastStake pre v.ConsAddr = some s → v.Tokens = (s : Int) := by
  have hpre : (updateValidators failure 0 pre store).1 = none :=
    updateValidators_ok failure pre 0 store (fun n _ h2 => hbefore n (by omega))
  cases hloop : updateValidators failure 0 pre store with
  | mk e mid =>
    rw [hloop] at hpre
    simp only at hpre
    subst hpre
    have hstep : updateValidators failure (0 + pre.length) (x :: post) mid = (some err, mid) := by
      rw [updateValidators]
      simp [GetValidatorByConsAddr, hk]
    have hall : updateValidators failure 0 (pre ++ x :: post) store = (some err, mid) := by
      rw [updateValidators_append, hloop]
      exact hstep
    have hrun : SymbioticUpdateValidatorsPower c r failure store = (("", some err), mid) := by
      simp [SymbioticUpdateValidatorsPower, hhash, hset, hall]
    rw [hrun]
    exact ⟨rfl, rfl, rfl, fun v hv s hs =>
      (updateValidators_overwrites failure pre 0 store mid hloop v hv).1 s hs⟩

/-- The table `[(500, A), (10, B), (7, C)]` with a store failure at the lookup
for `B`: the validator at `A` holds 500, the validator at `C` keeps its 9. -/
theorem symbioticUpdate_not_transactional_witness :
    (SymbioticUpdateValidatorsPower demoConfig
        (demoRemote [{ Stake := 500, ConsAddr := [1] }, { Stake := 10, ConsAddr := [2] },
          { Stake := 7, ConsAddr := [3] }])
        (failAt 1) [demoValidator "valA" [1] 3, demoValidator "valC" [3] 9]).1
      = ("", some otherError) ∧
    (updateValidators (failAt 1) 0 [{ Stake := 500, ConsAddr := [1] }]
        [demoValidator "valA" [1] 3, demoValidator "valC" [3] 9]).1 = none ∧
    (SymbioticUpdateValidatorsPower demoConfig
        (demoRemote [{ Stake := 500, ConsAddr := [1] }, { Stake := 10, ConsAddr := [2] },
          { Stake := 7, ConsAddr := [3] }])
        (failAt 1) [demoValidator "valA" [1] 3, demoValidator "valC" [3] 9]).2
      = (updateValidators (failAt 1) 0 [{ Stake := 500, ConsAddr := [1] }]
          [demoValidator "valA" [1] 3, demoValidator "valC" [3] 9]).2 ∧
    ∀ v ∈ (SymbioticUpdateValidatorsPower demoConfig
        (demoRemote [{ Stake := 500, ConsAddr := [1] }, { Stake := 10, ConsAddr := [2] },
          { Stake := 7, ConsAddr := [3] }])
        (failAt 1) [demoValidator "valA" [1] 3, demoValidator "valC" [3] 9]).2,
      ∀ s, lastStake [{ Stake := 500, ConsAddr := [1] }] v.ConsAddr = some s →
        v.Tokens = (s : Int) :=
  symbioticUpdate_not_transactional demoConfig
    (demoRemote [{ Stake := 500, ConsAddr := [1] }, { Stake := 10, ConsAddr := [2] },
      { Stake := 7, ConsAddr := [3] }])
    (failAt 1) [demoValidator "valA" [1] 3, demoValidator "valC" [3] 9] "0xab"
    [{ Stake := 500, ConsAddr := [1] }] [{ Stake := 7, ConsAddr := [3] }]
    { Stake := 10, ConsAddr := [2] } otherError rfl rfl (by decide) rfl

/-- The run of the witness above, evaluated: the error is returned with the
empty string, the validator at `A` holds 500 and the validator at `C` still
holds 9, not the 7 of the third tuple. -/
theorem symbioticUpdate_partial_example :
    SymbioticUpdateValidatorsPower demoConfig
        (demoRemote [{ Stake := 500, ConsAddr := [1] }, { Stake := 10, ConsAddr := [2] },
          { Stake := 7, ConsAddr := [3] }])
        (failAt 1) [demoValidator "valA" [1] 3, demoValidator "valC" [3] 9]
      = (("", some otherError), [demoValidator "valA" [1] 500, demoValidator "valC" [3] 9]) := by
  decide

/-! ## The endpoint pools -/

/-- A split has at least one piece. -/
theorem splitChars_ne_nil (sep : Char) (cs : List Char) : splitChars sep cs ≠ [] := by
  cases cs with
  | nil => simp [splitChars]
  | cons c cs =>
    unfold splitChars
    split
    · simp
    · split <;> simp

/-- The pieces of a split, joined by the separator, give the list back. -/
theorem splitChars_intercalate (sep : Char) (cs : List Char) :
    [sep].intercalate (splitChars sep cs) = cs := by
  induction cs with
  | nil => simp [splitChars, List.intercalate]
  | cons c cs ih =>
    unfold splitChars
    by_cases hc : c = sep
    · simp only [hc, if_true]
      cases hs : splitChars sep cs with
      | nil => exact absurd hs (splitChars_ne_nil sep cs)
      | cons piece pieces =>
        rw [hs] at ih
        rw [← ih]
        simp [List.intercalate, List.intersperse]
    · simp only [hc, if_false]
      cases hs : splitChars sep cs with
      | nil => exact absurd hs (splitChars_ne_nil sep cs)
      | cons piece pieces =>
        rw [hs] at ih
        rw [← ih]
        cases pieces <;> simp [List.intercalate, List.intersperse]

/-- No piece of a split holds the separator. -/
theorem splitChars_no_sep (sep : Char) (cs : List Char) :
    ∀ piece ∈ splitChars sep cs, sep ∉ piece := by
  induction cs with
  | nil => simp [splitChars]
  | cons c cs ih =>
    unfold splitChars
    by_cases hc : c = sep
    · simp only [hc, if_true]
      intro piece hp
      rcases List.mem_cons.mp hp with h | h
      · simp [h]
      · exact ih piece h
    · simp only [hc, if_false]
      cases hs : splitChars sep cs with
      | nil => exact absurd hs (splitChars_ne_nil sep cs)
      | cons piece0 pieces =>
        rw [hs] at ih
        intro piece hp
        rcases List.mem_cons.mp hp with h | h
        · subst h
          have := ih piece0 (List.mem_cons_self _ _)
          simp only [List.mem_cons, not_or]
          exact ⟨fun h => hc h.symm, this⟩
        · exact ih piece (List.mem_cons_of_mem _ h)

/-- A split is the single empty piece exactly for the empty list. -/
theorem splitChars_eq_single_nil (sep : Char) (cs : List Char) :
    splitChars sep cs = [[]] ↔ cs = [] := by
  constructor
  · intro h
    cases cs with
    | nil => rfl
    | cons c cs =>
      unfold splitChars at h
      by_cases hc : c = sep
      · simp only [hc, if_true] at h
        have := splitChars_ne_nil sep cs
        simp_all
      · simp only [hc, if_false] at h
        cases hs : splitChars sep cs <;> simp [hs] at h
  · rintro rfl
    rfl

/-- The call `strings.Split(s, ",")` never gives the empty slice. -/
theorem split_ne_nil (s : String) (sep : Char) : strings.Split s sep ≠ [] := by
  simp [strings.Split, splitChars_ne_nil]

/-- The test of `NewKeeper` for an unset variable holds exactly for the empty
string. -/
theorem split_single_empty_iff (s : String) (sep : Char) :
    ((strings.Split s sep).length = 1 ∧ (strings.Split s sep)[0]? = some "") ↔ s = "" := by
  constructor
  · rintro ⟨hlen, hhead⟩
    unfold strings.Split at hlen hhead
    cases hs : splitChars sep s.toList with
    | nil => exact absurd hs (splitChars_ne_nil sep _)
    | cons piece pieces =>
      rw [hs] at hlen hhead
      simp only [List.map_cons, List.length_cons, List.length_map, Nat.add_left_eq_self,
        List.length_eq_zero] at hlen
      subst hlen
      simp only [List.map_cons, List.map_nil, List.getElem?_cons_zero, Option.some.injEq] at hhead
      have hp : piece = [] := by
        have := congrArg String.data hhead
        simpa using this
      subst hp
      have hnil := (splitChars_eq_single_nil sep s.toList).mp hs
      cases s with
      | mk data =>
        simp only [String.toList] at hnil
        subst hnil
        rfl
  · rintro rfl
    exact ⟨rfl, rfl⟩

/-- The header pool `NewKeeper` builds. -/
theorem newKeeper_beaconApiUrls (getenv : String → String) :
    (NewKeeper getenv).beaconApiUrls
      = if getenv "BEACON_API_URLS" = "" then defaultBeaconApiUrls
        else strings.Split (getenv "BEACON_API_URLS") ',' := by
  by_cases h : getenv "BEACON_API_URLS" = ""
  · simp [NewKeeper, h, strings.Split, splitChars, defaultBeaconApiUrls]
  · have hne := (split_single_empty_iff (getenv "BEACON_API_URLS") ',').not.mpr h
    simp only [NewKeeper, h, if_false]
    rw [if_neg hne]

/-- The contract-query pool `NewKeeper` builds. -/
theorem newKeeper_ethApiUrls (getenv : String → String) :
    (NewKeeper getenv).ethApiUrls
      = if getenv "ETH_API_URLS" = "" then defaultEthApiUrls
        else strings.Split (getenv "ETH_API_URLS") ',' := by
  by_cases h : getenv "ETH_API_URLS" = ""
  · simp [NewKeeper, h, strings.Split, splitChars, defaultEthApiUrls]
  · have hne := (split_single_empty_iff (getenv "ETH_API_URLS") ',').not.mpr h
    simp only [NewKeeper, h, if_false]
    rw [if_neg hne]

/-- A draw from a pool that is not empty is in range and gives a member. -/
theorem draw_of_ne_nil (pool : List String) (draw : Nat) (hne : pool ≠ []) :
    ∃ (i : Nat) (url : String), rand.Intn draw pool.length = some i ∧ i < pool.length ∧
      pool[i]? = some url ∧ url ∈ pool := by
  have hpos : 0 < pool.length := List.length_pos.mpr hne
  have hlt : draw % pool.length < pool.length := Nat.mod_lt _ hpos
  refine ⟨draw % pool.length, pool[draw % pool.length], ?_, hlt, ?_, ?_⟩
  · simp [rand.Intn, Nat.pos_iff_ne_zero.mp hpos]
  · exact List.getElem?_eq_getElem hlt
  · exact List.getElem_mem _

/-- C23. Endpoint pool construction: for every value of the environment, the
header pool is the three default endpoints when `BEACON_API_URLS` is unset or
empty and the comma-separated split of its value otherwise, and the
contract-query pool is the five default endpoints when `ETH_API_URLS` is unset
or empty and the split of its value otherwise; neither pool is empty; and for
every draw of the random source the index `rand.Intn` gives is in range, and
`GetBeaconApiUrl` and `GetEthApiUrl` return, without panic, a member of their
pool. -/
theorem endpoint_pools (getenv : String → String) (draw : Nat) :
    ((NewKeeper getenv).beaconApiUrls
      = if getenv "BEACON_API_URLS" = "" then defaultBeaconApiUrls
        else strings.Split (getenv "BEACON_API_URLS") ',') ∧
    ((NewKeeper getenv).ethApiUrls
      = if getenv "ETH_API_URLS" = "" then defaultEthApiUrls
        else strings.Split (getenv "ETH_API_URLS") ',') ∧
    defaultBeaconApiUrls.length = 3 ∧ defaultEthApiUrls.length = 5 ∧
    (NewKeeper getenv).beaconApiUrls ≠ [] ∧
    (NewKeeper getenv).ethApiUrls ≠ [] ∧
    (∃ (i : Nat) (url : String),
      rand.Intn draw (NewKeeper getenv).beaconApiUrls.length = some i ∧
      i < (NewKeeper getenv).beaconApiUrls.length ∧
      GetBeaconApiUrl (NewKeeper getenv) draw = some url ∧
      url ∈ (NewKeeper getenv).beaconApiUrls) ∧
    (∃ (i : Nat) (url : String),
      rand.Intn draw (NewKeeper getenv).ethApiUrls.length = some i ∧
      i < (NewKeeper getenv).ethApiUrls.length ∧
      GetEthApiUrl (NewKeeper getenv) draw = some url ∧
      url ∈ (NewKeeper getenv).ethApiUrls) := by
  have hb : (NewKeeper getenv).beaconApiUrls ≠ [] := by
    rw [newKeeper_beaconApiUrls]
    split
    · simp [defaultBeaconApiUrls]
    · exact split_ne_nil _ _
  have he : (NewKeeper getenv).ethApiUrls ≠ [] := by
    rw [newKeeper_ethApiUrls]
    split
    · simp [defaultEthApiUrls]
    · exact split_ne_nil _ _
  refine ⟨newKeeper_beaconApiUrls getenv, newKeeper_ethApiUrls getenv, rfl, rfl, hb, he, ?_, ?_⟩
  · obtain ⟨i, url, hi, hlt, hget, hmem⟩ := draw_of_ne_nil _ draw hb
    exact ⟨i, url, hi, hlt, by simp [GetBeaconApiUrl, hi, hget], hmem⟩
  · obtain ⟨i, url, hi, hlt, hget, hmem⟩ := draw_of_ne_nil _ draw he
    exact ⟨i, url, hi, hlt, by simp [GetEthApiUrl, hi, hget], hmem⟩

/-- Two pools, evaluated: an environment with `BEACON_API_URLS` set to
`http://a,http://b` and `ETH_API_URLS` not set. -/
theorem endpoint_pools_example :
    (NewKeeper (fun name => if name = "BEACON_API_URLS" then "http://a,http://b" else "")
      ).beaconApiUrls = ["http://a", "http://b"] ∧
    (NewKeeper (fun name => if name = "BEACON_API_URLS" then "http://a,http://b" else "")
      ).ethApiUrls = defaultEthApiUrls ∧
    GetBeaconApiUrl
      (NewKeeper (fun name => if name = "BEACON_API_URLS" then "http://a,http://b" else ""))
      5 = some "http://b" := by
  refine ⟨by decide, by decide, by decide⟩

/-! ## Validator descriptions -/

/-- The description `EnsureLength` returns is the one it was given, and it
returns an error exactly when a field is longer than its maximum. -/
theorem ensureLength_spec (d : types.Description) :
    d.EnsureLength.1 = d ∧
    (d.EnsureLength.2 ≠ none ↔
      len d.Moniker > types.MaxMonikerLength ∨ len d.Identity > types.MaxIdentityLength ∨
      len d.Website > types.MaxWebsiteLength ∨
      len d.SecurityContact > types.MaxSecurityContactLength ∨
      len d.Details > types.MaxDetailsLength) := by
  unfold types.Description.EnsureLength
  split_ifs <;> simp_all

/-- The description `UpdateDescription` hands to `EnsureLength`. -/
theorem updateDescription_fst (d d2 : types.Description) :
    (d.UpdateDescription d2).1
      = { Moniker := if d2.Moniker = types.DoNotModifyDesc then d.Moniker else d2.Moniker
          Identity := if d2.Identity = types.DoNotModifyDesc then d.Identity else d2.Identity
          Website := if d2.Website = types.DoNotModifyDesc then d.Website else d2.Website
          SecurityContact :=
            if d2.SecurityContact = types.DoNotModifyDesc then d.SecurityContact
            else d2.SecurityContact
          Details := if d2.Details = types.DoNotModifyDesc then d.Details else d2.Details } := by
  unfold types.Description.UpdateDescription
  simp only [(ensureLength_spec _).1, types.NewDescription]
  split_ifs <;> rfl

/-- C24. `UpdateDescription`: for all descriptions `d` and `d2`, each field of
the returned description (moniker, identity, website, security contact,
details) is the field of `d` when the field of `d2` is the marker
`[do-not-modify]` and the field of `d2` otherwise; and an error is returned if
and only if a field of the returned description is longer, in bytes, than its
maximum (70, 3000, 140, 140, 280). -/
theorem updateDescription_spec (d d2 : types.Description) :
    (d.UpdateDescription d2).1.Moniker
      = (if d2.Moniker = "[do-not-modify]" then d.Moniker else d2.Moniker) ∧
    (d.UpdateDescription d2).1.Identity
      = (if d2.Identity = "[do-not-modify]" then d.Identity else d2.Identity) ∧
    (d.UpdateDescription d2).1.Website
      = (if d2.Website = "[do-not-modify]" then d.Website else d2.Website) ∧
    (d.UpdateDescription d2).1.SecurityContact
      = (if d2.SecurityContact = "[do-not-modify]" then d.SecurityContact
         else d2.SecurityContact) ∧
    (d.UpdateDescription d2).1.Details
      = (if d2.Details = "[do-not-modify]" then d.Details else d2.Details) ∧
    ((d.UpdateDescription d2).2 ≠ none ↔
      len (d.UpdateDescription d2).1.Moniker > 70 ∨
      len (d.UpdateDescription d2).1.Identity > 3000 ∨
      len (d.UpdateDescription d2).1.Website > 140 ∨
      len (d.UpdateDescription d2).1.SecurityContact > 140 ∨
      len (d.UpdateDescription d2).1.Details > 280) := by
  have hfst := updateDescription_fst d d2
  refine ⟨by rw [hfst]; rfl, by rw [hfst]; rfl, by rw [hfst]; rfl, by rw [hfst]; rfl,
    by rw [hfst]; rfl, ?_⟩
  have hrun : d.UpdateDescription d2 = ((d.UpdateDescription d2).1).EnsureLength := by
    have h1 : ∀ x : types.Description, x.EnsureLength = (x.EnsureLength.1).EnsureLength :=
      fun x => by rw [(ensureLength_spec x).1]
    unfold types.Description.UpdateDescription
    exact h1 _
  rw [hrun, (ensureLength_spec _).1]
  exact (ensureLength_spec _).2

/-- Two updates, evaluated: the marker keeps the old moniker; a moniker of 71
bytes is returned together with an error. -/
theorem updateDescription_example :
    (types.NewDescription "old" "id" "w" "s" "dt").UpdateDescription
        (types.NewDescription "[do-not-modify]" "id2" "[do-not-modify]" "" "x")
      = (types.NewDescription "old" "id2" "w" "" "x", none) ∧
    ((types.NewDescription "old" "id" "w" "s" "dt").UpdateDescription
        (types.NewDescription (String.mk (List.replicate 71 'a')) "id2" "w" "s" "x")).2
      = some (invalidLength "moniker" 71 70) := by
  refine ⟨by decide, by rfl⟩

/-! ## The watermark -/

/-- The verdict is `accept` exactly on the accept path. -/
theorem verdict_accept_iff (p : Consts) (j : JSON) (k : Keeper) (ctx : Context)
    (req : FinalizeBlockRequest) (prev : Nat) (hash : String) (t : Nat) :
    verdict p j k ctx req prev = .accept hash t ↔
      ∃ block, OnAcceptPath p j k ctx req prev hash block ∧ block.Time = t := by
  constructor
  · intro hacc
    by_cases hs : req.Height.tmod p.SYMBIOTIC_SYNC_PERIOD = 0
    swap
    · simp [verdict, hs] at hacc
    cases htx : req.Txs with
    | nil => simp [verdict, hs, htx] at hacc
    | cons tx0 rest =>
      cases hu : j.Unmarshal tx0 with
      | error err => simp [verdict, hs, htx, hu] at hacc
      | ok blockHash =>
        by_cases hv : blockHash = p.INVALID_BLOCKHASH
        · simp [verdict, hs, htx, hu, hv] at hacc
        cases hbh : k.blockByHash blockHash with
        | error err =>
          cases hnf : err.isNotFound <;> simp [verdict, hs, htx, hu, hv, hbh, hnf] at hacc
        | ok found =>
          cases hbn : k.blockByNumber found.Number with
          | error err => simp [verdict, hs, htx, hu, hv, hbh, hbn] at hacc
          | ok block =>
            by_cases hh : block.Hash = blockHash
            swap
            · simp [verdict, hs, htx, hu, hv, hbh, hbn, hh] at hacc
            by_cases hg : block.Time < prev ∨ ctx.HeaderTimeUnix ≤ toInt64 block.Time
                ∨ block.Time < k.minBlockTimestamp
            · simp [verdict, hs, htx, hu, hv, hbh, hbn, hh, hg] at hacc
            · simp [verdict, hs, htx, hu, hv, hbh, hbn, hh, hg] at hacc
              obtain ⟨hh2, ht⟩ := hacc
              subst hh2
              refine ⟨block, ⟨hs, tx0, rest, found, htx, hu, hv, hbh, hbn, hh, ?_, ?_, ?_⟩, ht⟩
              · exact fun h => hg (Or.inl h)
              · exact fun h => hg (Or.inr (Or.inl h))
              · exact fun h => hg (Or.inr (Or.inr h))
  · rintro ⟨block, ⟨hs, tx0, rest, found, htx, hu, hv, hbh, hbn, hh, h1, h2, h3⟩, ht⟩
    have hg : ¬ (block.Time < prev ∨ ctx.HeaderTimeUnix ≤ toInt64 block.Time
        ∨ block.Time < k.minBlockTimestamp) := by
      intro h
      rcases h with h | h | h
      · exact h1 h
      · exact h2 h
      · exact h3 h
    subst ht
    simp [verdict, hs, htx, hu, hv, hbh, hbn, hh, hg]

/-- One run never lowers `prevBlockTime`. -/
theorem preBlocker_prev_le (p : Consts) (j : JSON) (k : Keeper) (ctx : Context)
    (req : FinalizeBlockRequest) (w : World) :
    w.prevBlockTime ≤ (PreBlocker p j k ctx req w).2.prevBlockTime := by
  rw [(preBlocker_settles p j k ctx req w).2.1]
  cases hv : verdict p j k ctx req w.prevBlockTime with
  | accept blockHash time =>
    obtain ⟨block, ⟨_, _, _, _, _, _, _, _, _, _, h1, _, _⟩, ht⟩ :=
      (verdict_accept_iff p j k ctx req w.prevBlockTime blockHash time).mp hv
    simp only [Verdict.nextPrev]
    split
    · omega
    · exact le_rfl
  | _ => exact le_rfl

/-- A sequence of runs never lowers `prevBlockTime`. -/
theorem preBlockerSeq_prev_le (p : Consts) (j : JSON) (calls : List PreBlockerCall) :
    ∀ w : World, w.prevBlockTime ≤ (PreBlockerSeq p j calls w).prevBlockTime := by
  induction calls with
  | nil => exact fun w => le_rfl
  | cons call rest ih =>
    intro w
    have hstep := preBlocker_prev_le p j call.keeper call.ctx call.req w
    unfold PreBlockerSeq
    cases hrun : PreBlocker p j call.keeper call.ctx call.req w with
    | mk outcome w1 =>
      rw [hrun] at hstep
      cases outcome with
      | returned err => exact le_trans hstep (ih w1)
      | exited => exact hstep
      | panicked => exact hstep

/-- C25. Watermark invariant.  Across every sequence of `PreBlocker` calls on
one handler `prevBlockTime` never decreases.  In a single call it changes only
on the accept path with a cache write that succeeded: the call then returned
nil and `prevBlockTime` is the time of the accepted block.  On the accept path
a cache write that succeeds always leaves `prevBlockTime` equal to the time of
the accepted block, and a cache write that fails returns its error and leaves
`prevBlockTime` as it was. -/
theorem watermark_invariant (p : Consts) (j : JSON) :
    (∀ (calls : List PreBlockerCall) (w : World),
      w.prevBlockTime ≤ (PreBlockerSeq p j calls w).prevBlockTime) ∧
    (∀ (k : Keeper) (ctx : Context) (req : FinalizeBlockRequest) (w : World),
      (PreBlocker p j k ctx req w).2.prevBlockTime ≠ w.prevBlockTime →
      ∃ (hash : String) (block : Block),
        OnAcceptPath p j k ctx req w.prevBlockTime hash block ∧
        k.cacheWriteError { BlockHash := hash, Height := req.Height } = none ∧
        (PreBlocker p j k ctx req w).1 = .returned none ∧
        (PreBlocker p j k ctx req w).2.prevBlockTime = block.Time) ∧
    (∀ (k : Keeper) (ctx : Context) (req : FinalizeBlockRequest) (w : World)
      (hash : String) (block : Block),
      OnAcceptPath p j k ctx req w.prevBlockTime hash block →
      k.cacheWriteError { BlockHash := hash, Height := req.Height } = none →
      (PreBlocker p j k ctx req w).1 = .returned none ∧
      (PreBlocker p j k ctx req w).2.prevBlockTime = block.Time) ∧
    (∀ (k : Keeper) (ctx : Context) (req : FinalizeBlockRequest) (w : World)
      (hash : String) (block : Block) (err : GoError),
      OnAcceptPath p j k ctx req w.prevBlockTime hash block →
      k.cacheWriteError { BlockHash := hash, Height := req.Height } = some err →
      (PreBlocker p j k ctx req w).1 = .returned (some err) ∧
      (PreBlocker p j k ctx req w).2.prevBlockTime = w.prevBlockTime) := by
  refine ⟨preBlockerSeq_prev_le p j, ?_, ?_, ?_⟩
  · intro k ctx req w hchg
    obtain ⟨ho, hp, _, _⟩ := preBlocker_settles p j k ctx req w
    rw [hp] at hchg
    rw [ho, hp]
    cases hv : verdict p j k ctx req w.prevBlockTime with
    | accept blockHash time =>
      rw [hv] at hchg
      obtain ⟨block, hpath, ht⟩ :=
        (verdict_accept_iff p j k ctx req w.prevBlockTime blockHash time).mp hv
      cases hc : k.cacheWriteError { BlockHash := blockHash, Height := req.Height } with
      | some err => simp [Verdict.nextPrev, hc] at hchg
      | none =>
        exact ⟨blockHash, block, hpath, hc, by simp [Verdict.outcome, hc],
          by simp [Verdict.nextPrev, hc, ht]⟩
    | idle => rw [hv] at hchg; exact absurd rfl hchg
    | undecodable err => rw [hv] at hchg; exact absurd rfl hchg
    | halted => rw [hv] at hchg; exact absurd rfl hchg
    | skip => rw [hv] at hchg; exact absurd rfl hchg
  · intro k ctx req w hash block hpath hc
    obtain ⟨ho, hp, _, _⟩ := preBlocker_settles p j k ctx req w
    have hv := (verdict_accept_iff p j k ctx req w.prevBlockTime hash block.Time).mpr
      ⟨block, hpath, rfl⟩
    rw [ho, hp, hv]
    simp [Verdict.outcome, Verdict.nextPrev, hc]
  · intro k ctx req w hash block err hpath hc
    obtain ⟨ho, hp, _, _⟩ := preBlocker_settles p j k ctx req w
    have hv := (verdict_accept_iff p j k ctx req w.prevBlockTime hash block.Time).mpr
      ⟨block, hpath, rfl⟩
    rw [ho, hp, hv]
    simp [Verdict.outcome, Verdict.nextPrev, hc]

/-- Two calls on one handler: a block of time 50 is accepted at height 100,
then a block of time 40 is offered at height 200. -/
theorem watermark_invariant_witness :
    World.init.prevBlockTime
      ≤ (PreBlockerSeq demoConsts quoteJSON
          [{ keeper := demoKeeper (.ok "0xab") "0xab" 50 10, ctx := ⟨60⟩,
             req := ⟨[txAB], 100⟩ },
           { keeper := demoKeeper (.ok "0xab") "0xab" 40 10, ctx := ⟨70⟩,
             req := ⟨[txAB], 200⟩ }] World.init).prevBlockTime ∧
    ((PreBlocker demoConsts quoteJSON (demoKeeper (.ok "0xab") "0xab" 50 10) ⟨60⟩
        ⟨[txAB], 100⟩ World.init).1 = .returned none ∧
      (PreBlocker demoConsts quoteJSON (demoKeeper (.ok "0xab") "0xab" 50 10) ⟨60⟩
        ⟨[txAB], 100⟩ World.init).2.prevBlockTime
        = (Block.mk 7 "0xab" 50).Time) :=
  ⟨(watermark_invariant demoConsts quoteJSON).1 _ World.init,
   (watermark_invariant demoConsts quoteJSON).2.2.1 (demoKeeper (.ok "0xab") "0xab" 50 10)
     ⟨60⟩ ⟨[txAB], 100⟩ World.init "0xab" { Number := 7, Hash := "0xab", Time := 50 }
     ⟨by decide, txAB, [], { Number := 7, Hash := "0xab", Time := 50 }, rfl, rfl, by decide,
       rfl, rfl, rfl, by decide, by decide, by decide⟩
     rfl⟩

/-- The sequence of the witness above, evaluated: after both calls
`prevBlockTime` is 50 and the store holds the sentinel at height 200. -/
theorem watermark_example :
    (PreBlockerSeq demoConsts quoteJSON
        [{ keeper := demoKeeper (.ok "0xab") "0xab" 50 10, ctx := ⟨60⟩, req := ⟨[txAB], 100⟩ },
         { keeper := demoKeeper (.ok "0xab") "0xab" 40 10, ctx := ⟨70⟩, req := ⟨[txAB], 200⟩ }]
        World.init).prevBlockTime = 50 ∧
    (PreBlockerSeq demoConsts quoteJSON
        [{ keeper := demoKeeper (.ok "0xab") "0xab" 50 10, ctx := ⟨60⟩, req := ⟨[txAB], 100⟩ },
         { keeper := demoKeeper (.ok "0xab") "0xab" 40 10, ctx := ⟨70⟩, req := ⟨[txAB], 200⟩ }]
        World.init).cache = some { BlockHash := "invalid", Height := 200 } := by
  refine ⟨by decide, by decide⟩

/-! ## One cache write per cycle -/

/-- A run at a sync height whose first transaction decodes to `hash`, and in
which the candidate is the sentinel, or the lookup by hash reports `NotFound`,
or both lookups succeed, does not end in the process exit and issues exactly
one cache write, of the sentinel or of `hash` at the request height. -/
theorem preBlocker_one_write_of_answers (p : Consts) (j : JSON) (k : Keeper)
    (ctx : Context) (req : FinalizeBlockRequest) (w : World) (tx0 : Tx) (rest : List Tx)
    (hash : String)
    (hsync : req.Height.tmod p.SYMBIOTIC_SYNC_PERIOD = 0)
    (htxs : req.Txs = tx0 :: rest)
    (hdec : j.Unmarshal tx0 = .ok hash)
    (hans : hash = p.INVALID_BLOCKHASH ∨
      (∃ e, k.blockByHash hash = .error e ∧ e.isNotFound = true) ∨
      (∃ found block, k.blockByHash hash = .ok found ∧
        k.blockByNumber found.Number = .ok block)) :
    (PreBlocker p j k ctx req w).1 ≠ .exited ∧
    ∃ c : CachedBlockHash,
      cacheWrites (PreBlocker p j k ctx req w).2.trace = cacheWrites w.trace ++ [c] ∧
      c.Height = req.Height ∧
      (c.BlockHash = p.INVALID_BLOCKHASH ∨ c.BlockHash = hash) := by
  obtain ⟨ho, _, _, hw⟩ := preBlocker_settles p j k ctx req w
  have hlive : verdict p j k ctx req w.prevBlockTime ≠ .halted := by
    rcases hans with h | ⟨e, hbh, hnf⟩ | ⟨found, block, hbh, hbn⟩
    · simp [verdict, hsync, htxs, hdec, h]
    · by_cases hv : hash = p.INVALID_BLOCKHASH
      · simp [verdict, hsync, htxs, hdec, hv]
      · simp [verdict, hsync, htxs, hdec, hv, hbh, hnf]
    · by_cases hv : hash = p.INVALID_BLOCKHASH
      · simp [verdict, hsync, htxs, hdec, hv]
      · simp only [verdict, hsync, htxs, hdec, hv, hbh, hbn, ne_eq, not_true_eq_false,
          if_false]
        split
        · simp
        · split <;> simp
  refine ⟨by rw [ho, Ne, outcome_exited_iff]; exact hlive, ?_⟩
  rcases verdict_of_decoded p j k ctx req w.prevBlockTime tx0 rest hash hsync htxs hdec
    with hv | hv | ⟨t, hv⟩
  · exact absurd hv hlive
  · exact ⟨skipRecord p req, by rw [hw, hv]; rfl, rfl, Or.inl rfl⟩
  · exact ⟨{ BlockHash := hash, Height := req.Height }, by rw [hw, hv]; rfl, rfl, Or.inr rfl⟩

/-- C17, at the input where the code departs from it.  The run is at the sync
height 100, on a non-empty transaction list whose first transaction decodes to
`"0xab"`; the candidate is found by hash, and the lookup by the found number
reports `NotFound`, which is not a fatal lookup error.  One cache write is due;
the run issues none: it ends in the process exit and the store slot is
empty. -/
theorem preBlocker_no_write_on_number_not_found :
    Int.tmod 100 demoConsts.SYMBIOTIC_SYNC_PERIOD = 0 ∧
    quoteJSON.Unmarshal txAB = .ok "0xab" ∧
    notFound.isNotFound = true ∧
    cacheWrites (PreBlocker demoConsts quoteJSON
        (constKeeper (.ok { Number := 7, Hash := "0xab", Time := 50 }) (.error notFound) 10)
        ⟨60⟩ ⟨[txAB], 100⟩ World.init).2.trace = [] ∧
    (PreBlocker demoConsts quoteJSON
        (constKeeper (.ok { Number := 7, Hash := "0xab", Time := 50 }) (.error notFound) 10)
        ⟨60⟩ ⟨[txAB], 100⟩ World.init).2.cache = none ∧
    (PreBlocker demoConsts quoteJSON
        (constKeeper (.ok { Number := 7, Hash := "0xab", Time := 50 }) (.error notFound) 10)
        ⟨60⟩ ⟨[txAB], 100⟩ World.init).1 = .exited := by
  refine ⟨by decide, rfl, rfl, by decide, by decide, by decide⟩

end SymStaking
